import Mathlib

/-!
Verification development for the ai-word-card vocabulary-flashcard application.

This file gives a shallow embedding of the application's core logic:

* the string normalization and the resumable batch word generator of
  `src/services/geminiService.ts` (`processAndGenerateWords`),
* the localStorage-backed content store and schema migration of
  `src/services/storageService.ts` (`migrateWordCard`, `migrateDeck`,
  `migrateStory`, `getDecks`/`saveDecks`, ...), modelled over a JSON value
  type, and
* the HomePage handlers of the main component (`handleDeleteDeck`,
  `handleDeleteWord`, `handleFileImport`).

JavaScript-specific behaviour (object spread, `x || default` fallbacks,
`Array.isArray` checks, in-place `Array.prototype.sort`, first-occurrence-wins
`Map` insertion, `TypeError` on property access of `null`) is modelled
explicitly.  All definitions are computable so that concrete runs reduce in
the kernel.
-/

/-! ## JavaScript string primitives

`String.trim`/`String.toLowerCase` are modelled on the character list of the
string so that they evaluate by kernel reduction.  `Char.toLower` is Lean's
ASCII lowercasing, which agrees with JavaScript `toLowerCase` on the ASCII
range used for vocabulary words.
-/

/-- Model of JavaScript `String.prototype.toLowerCase` (ASCII range). -/
def jsToLower (s : String) : String :=
  ⟨s.data.map Char.toLower⟩

/-- Model of JavaScript `String.prototype.trim`: drop whitespace from both
ends. -/
def jsTrim (s : String) : String :=
  ⟨((s.data.dropWhile Char.isWhitespace).reverse.dropWhile Char.isWhitespace).reverse⟩

theorem char_toLower_toNat (c : Char) :
    (c.toLower).toNat = if 65 ≤ c.toNat ∧ c.toNat ≤ 90 then c.toNat + 32 else c.toNat := by
  unfold Char.toLower
  by_cases h : 65 ≤ c.toNat ∧ c.toNat ≤ 90
  · have hv : Nat.isValidChar (c.toNat + 32) := Or.inl (by omega)
    rw [if_pos ⟨h.1, h.2⟩, if_pos h]
    show (Char.ofNat (c.toNat + 32)).toNat = c.toNat + 32
    rw [Char.ofNat, dif_pos hv]
    show (BitVec.ofNatLt (c.toNat + 32) _).toNat = c.toNat + 32
    exact BitVec.toNat_ofNatLt _ _
  · rw [if_neg, if_neg h]
    intro hc
    exact h ⟨hc.1, hc.2⟩

theorem char_eq_of_toNat_eq {a b : Char} (h : a.toNat = b.toNat) : a = b := by
  have hab := Char.ofNat_toNat a
  rw [h, Char.ofNat_toNat b] at hab
  exact hab.symm

theorem char_toLower_idem (c : Char) : (c.toLower).toLower = c.toLower := by
  have h1 := char_toLower_toNat c
  have h2 := char_toLower_toNat c.toLower
  have hno : ¬ (65 ≤ (c.toLower).toNat ∧ (c.toLower).toNat ≤ 90) := by
    rw [h1]
    by_cases h : 65 ≤ c.toNat ∧ c.toNat ≤ 90
    · simp [h]
      omega
    · simp [h]
  apply char_eq_of_toNat_eq
  rw [h2, if_neg hno]

theorem jsToLower_idem (s : String) : jsToLower (jsToLower s) = jsToLower s := by
  simp [jsToLower, List.map_map, Function.comp_def, char_toLower_idem]

/-- Boolean lexicographic comparison of character lists by code point,
modelling the code-unit comparison of JavaScript's default
`Array.prototype.sort` comparator (identical on the ASCII range). -/
def charListLe : List Char → List Char → Bool
  | [], _ => true
  | _ :: _, [] => false
  | a :: as, b :: bs =>
    if a.toNat < b.toNat then true
    else if b.toNat < a.toNat then false
    else charListLe as bs

/-- String comparison used by the model of `Array.prototype.sort()`. -/
def strLe (a b : String) : Bool :=
  charListLe a.data b.data

/-- Insert a word into a sorted list (insertion-sort step). -/
def insertWord (x : String) : List String → List String
  | [] => [x]
  | y :: ys => if strLe x y then x :: y :: ys else y :: insertWord x ys

/-- Model of JavaScript `Array.prototype.sort()` on an array of strings: a
sort by the default string comparator.  Since the comparator is a total
order, any sorting algorithm produces the same output list, so insertion
sort is extensionally the behaviour of the source. -/
def sortWords : List String → List String
  | [] => []
  | x :: xs => insertWord x (sortWords xs)

theorem insertWord_perm (x : String) (l : List String) :
    (insertWord x l).Perm (x :: l) := by
  induction l with
  | nil => simp [insertWord]
  | cons y ys ih =>
    simp only [insertWord]
    by_cases h : strLe x y = true
    · simp [h]
    · simp only [h]
      rw [if_neg (by simp [h])]
      exact (List.Perm.cons y ih).trans (List.Perm.swap x y ys)

theorem sortWords_perm (l : List String) : (sortWords l).Perm l := by
  induction l with
  | nil => simp [sortWords]
  | cons x xs ih =>
    exact (insertWord_perm x (sortWords xs)).trans (List.Perm.cons x ih)

/-- Model of `[...new Set(arr)]`: deduplicate keeping the first occurrence
of each element, in order. -/
def dedupKeepFirst (l : List String) : List String :=
  l.foldl (fun acc w => if acc.contains w then acc else acc ++ [w]) []

theorem dedupKeepFirst_aux_nodup (l : List String) (acc : List String) (h : acc.Nodup) :
    (l.foldl (fun acc w => if acc.contains w then acc else acc ++ [w]) acc).Nodup := by
  induction l generalizing acc with
  | nil => exact h
  | cons x xs ih =>
    simp only [List.foldl_cons]
    by_cases hx : acc.contains x
    · rw [if_pos hx]; exact ih acc h
    · rw [if_neg hx]
      apply ih
      rw [List.nodup_append]
      refine ⟨h, List.nodup_singleton x, ?_⟩
      intro a ha hb
      rw [List.mem_singleton] at hb
      subst hb
      exact hx (by simpa using ha)

theorem dedupKeepFirst_nodup (l : List String) : (dedupKeepFirst l).Nodup :=
  dedupKeepFirst_aux_nodup l [] List.nodup_nil

theorem dedupKeepFirst_aux_subset (l : List String) (acc : List String) :
    ∀ w ∈ l.foldl (fun acc w => if acc.contains w then acc else acc ++ [w]) acc,
      w ∈ acc ∨ w ∈ l := by
  induction l generalizing acc with
  | nil => intro w hw; exact Or.inl hw
  | cons x xs ih =>
    intro w hw
    simp only [List.foldl_cons] at hw
    by_cases hx : acc.contains x
    · rw [if_pos hx] at hw
      rcases ih acc w hw with h | h
      · exact Or.inl h
      · exact Or.inr (List.mem_cons_of_mem x h)
    · rw [if_neg hx] at hw
      rcases ih (acc ++ [x]) w hw with h | h
      · rw [List.mem_append, List.mem_singleton] at h
        rcases h with h | h
        · exact Or.inl h
        · exact Or.inr (h ▸ List.mem_cons_self x xs)
      · exact Or.inr (List.mem_cons_of_mem x h)

theorem dedupKeepFirst_subset (l : List String) :
    ∀ w ∈ dedupKeepFirst l, w ∈ l := by
  intro w hw
  rcases dedupKeepFirst_aux_subset l [] w hw with h | h
  · exact absurd h (List.not_mem_nil w)
  · exact h

/-! ## Data model of the batch generator (`src/types.ts`)

A `WordCard` is split as identifier plus data to mirror the destructuring
`const { id, ...data } = card` used throughout `processAndGenerateWords`. -/

/-- Phonetic transcriptions (`phonetics: { uk, us }`). -/
structure Phonetics where
  uk : String
  us : String
  deriving Repr, DecidableEq

/-- Part of speech (`partOfSpeech: { abbreviation, nativeName }`). -/
structure PartOfSpeech where
  abbreviation : String
  nativeName : String
  deriving Repr, DecidableEq

/-- One definition entry of a word card.  The source field `example` is a
reserved word in Lean and is rendered here as `exampleText`. -/
structure DefEntry where
  definition : String
  nativeDefinition : String
  exampleText : String
  exampleTranslation : String
  deriving Repr, DecidableEq

/-- One collocation entry of a word card. -/
structure Collocation where
  phrase : String
  translation : String
  deriving Repr, DecidableEq

/-- One word-family entry of a word card. -/
structure FamilyEntry where
  word : String
  partOfSpeech : String
  nativeTranslation : String
  deriving Repr, DecidableEq

/-- One mnemonic entry of a word card. -/
structure Mnemonic where
  type : String
  targetLanguage : String
  nativeLanguage : String
  deriving Repr, DecidableEq

/-- All fields of a `WordCard` except the identifier: the payload bound by
`const { id, ...data } = card`. -/
structure CardData where
  word : String
  targetLanguage : String
  nativeLanguage : String
  phonetics : Phonetics
  audioPronunciation : Option String
  partOfSpeech : PartOfSpeech
  definitions : List DefEntry
  collocations : List Collocation
  synonyms : List String
  antonyms : List String
  wordFamily : List FamilyEntry
  mnemonic : List Mnemonic
  image : Option String
  deriving Repr, DecidableEq

/-- A full word card: identifier plus data. -/
structure WordCard where
  id : String
  data : CardData
  deriving Repr, DecidableEq

/-- The payload returned by `generateFlashcardDataForWord`:
`Omit<WordCard, 'id' | 'audioPronunciation' | 'image'>`. -/
structure GenData where
  word : String
  targetLanguage : String
  nativeLanguage : String
  phonetics : Phonetics
  partOfSpeech : PartOfSpeech
  definitions : List DefEntry
  collocations : List Collocation
  synonyms : List String
  antonyms : List String
  wordFamily : List FamilyEntry
  mnemonic : List Mnemonic
  deriving Repr, DecidableEq

/-- Assemble a new card's data from generated content plus the speech result,
mirroring `{ id, ...cardData, audioPronunciation, image: undefined }`. -/
def GenData.toCardData (g : GenData) (audio : Option String) : CardData :=
  { word := g.word
    targetLanguage := g.targetLanguage
    nativeLanguage := g.nativeLanguage
    phonetics := g.phonetics
    audioPronunciation := audio
    partOfSpeech := g.partOfSpeech
    definitions := g.definitions
    collocations := g.collocations
    synonyms := g.synonyms
    antonyms := g.antonyms
    wordFamily := g.wordFamily
    mnemonic := g.mnemonic
    image := none }

/-- A deck in the legacy embedded-cards shape assumed by the deck scan of
`processAndGenerateWords` (`deck.cards.forEach(card => ... card.word ...)`). -/
structure GenDeck where
  id : String
  title : String
  cards : List WordCard
  createdAt : String
  targetLanguage : String
  nativeLanguage : String
  deriving Repr, DecidableEq

/-- The generation checkpoint (`WordGenerationDraft`) stored under
`word_generation_draft`. -/
structure Draft where
  inputWords : List String
  generatedCards : List WordCard
  deriving Repr, DecidableEq

/-- Deterministic model of `uuidv4()`: the `n`-th identifier minted during a
run. -/
def uuid (n : Nat) : String :=
  "uuid-" ++ toString n

/-! ## The known-word lookup (`existingWordData : Map<string, Omit<WordCard,'id'>>`)

A JavaScript `Map` is modelled as an association list in insertion order;
`set` on an existing key updates the value in place, otherwise appends. -/

/-- Model of `Map.prototype.has`. -/
def mapHas (m : List (String × CardData)) (k : String) : Bool :=
  m.any (fun p => p.1 == k)

/-- Model of `Map.prototype.get` (`undefined` becomes `none`). -/
def mapGet? (m : List (String × CardData)) (k : String) : Option CardData :=
  (m.find? (fun p => p.1 == k)).map (fun p => p.2)

/-- Model of `Map.prototype.set`: update in place if the key exists, else
append at the end (JavaScript `Map`s preserve insertion order). -/
def mapSet (m : List (String × CardData)) (k : String) (v : CardData) :
    List (String × CardData) :=
  if m.any (fun p => p.1 == k) then
    m.map (fun p => if p.1 == k then (k, v) else p)
  else
    m ++ [(k, v)]

/-- Guarded insertion `if (!m.has(k)) m.set(k, v)` used when building the
lookup: the first occurrence of a key wins. -/
def mapSetIfAbsent (m : List (String × CardData)) (k : String) (v : CardData) :
    List (String × CardData) :=
  if mapHas m k then m else mapSet m k v

/-- Step 2 of `processAndGenerateWords` (geminiService.ts, lines 242-262):
build the lookup of already-known word data.  The source scans `allDecks`
first (each deck's embedded cards) and `allWords` second, inserting under the
lowercased word only when the key is absent. -/
def buildExistingWordData (allDecks : List GenDeck) (allWords : List WordCard) :
    List (String × CardData) :=
  let m := allDecks.foldl
    (fun m deck =>
      deck.cards.foldl
        (fun m card => mapSetIfAbsent m (jsToLower card.data.word) card.data) m)
    ([] : List (String × CardData))
  allWords.foldl
    (fun m card => mapSetIfAbsent m (jsToLower card.data.word) card.data) m

/-! ## The generation loop (`processAndGenerateWords`, step 3) -/

/-- State threaded through the word loop, together with the observable traces
of the run: the words sent to `generateFlashcardDataForWord` (`genCalls`), the
words sent to `generateSpeech` (`speechCalls`), and every checkpoint written
with `localStorage.setItem(DRAFT_KEY, ...)` (`writes`).  `slot` is the current
content of the `word_generation_draft` storage slot, and `nextId` numbers the
`uuidv4()` calls. -/
structure LoopSt where
  gcards : List WordCard
  lookup : List (String × CardData)
  slot : Option Draft
  genCalls : List String
  speechCalls : List String
  writes : List Draft
  nextId : Nat
  deriving Repr

/-- State update for the reuse branch of the loop (`existingWordData.has`):
the stored data is pushed under a fresh identifier; no checkpoint write. -/
def reuseStep (st : LoopSt) (cardData : CardData) : LoopSt :=
  { st with
    gcards := st.gcards ++ [⟨uuid st.nextId, cardData⟩]
    nextId := st.nextId + 1 }

/-- State update for the generation branch of the loop: the generated card is
pushed, the in-memory lookup learns the lowercased word, and a checkpoint
`{ inputWords: u, generatedCards: accumulator }` is written to the slot. -/
def genStep (u : List String) (st : LoopSt) (w : String) (g : GenData)
    (audio : Option String) : LoopSt :=
  let card : WordCard := ⟨uuid st.nextId, g.toCardData audio⟩
  let gcards' := st.gcards ++ [card]
  let d : Draft := ⟨u, gcards'⟩
  { st with
    gcards := gcards'
    lookup := mapSet st.lookup (jsToLower w) card.data
    slot := some d
    genCalls := st.genCalls ++ [w]
    speechCalls := st.speechCalls ++ [w]
    writes := st.writes ++ [d]
    nextId := st.nextId + 1 }

/-- One pass over the remaining input words (the `for` loop of
`processAndGenerateWords`).  `gen` models `generateFlashcardDataForWord`
(`none` = the call throws), `speech` models `generateSpeech` (`none` = no
audio, never throws), `u` is `uniqueInputWords` (used for checkpoint writes)
and `already` is `alreadyGeneratedWords`.  Returns the final state and
`some errorMessage` when the generation call threw. -/
def genLoop (gen : String → Option GenData) (speech : String → Option String)
    (u : List String) (already : List String) :
    List String → LoopSt → LoopSt × Option String
  | [], st => (st, none)
  | w :: rest, st =>
    if already.contains w then
      -- already generated in a recovered checkpoint: skip
      genLoop gen speech u already rest st
    else
      match mapGet? st.lookup w with
      | some cardData =>
        -- found locally: reuse the data under a fresh identifier
        genLoop gen speech u already rest (reuseStep st cardData)
      | none =>
        -- remote generation; the call itself is recorded before it can throw
        match gen w with
        | none =>
          ({ st with genCalls := st.genCalls ++ [w] },
            some ("Failed to generate flashcard data for \"" ++ w ++ "\"."))
        | some g =>
          genLoop gen speech u already rest (genStep u st w g (speech w))

/-- The observable outcome of one invocation of the batch generator. -/
structure RunResult where
  result : Except String (List WordCard)
  slot : Option Draft
  genCalls : List String
  speechCalls : List String
  writes : List Draft
  deriving Repr

/-- Normalization of the requested words (geminiService.ts, line 223):
`[...new Set(words.map(w => w.trim().toLowerCase()).filter(Boolean))]`. -/
def normalizeWords (words : List String) : List String :=
  dedupKeepFirst ((words.map (fun w => jsToLower (jsTrim w))).filter (fun w => w ≠ ""))

/-- Shallow embedding of `processAndGenerateWords` (geminiService.ts, lines
215-317).  `allDecks`/`allWords` are the collections returned by
`getDecks()`/`getWords()`, and `slot0` is the parsed content of the
`word_generation_draft` slot (`none` when absent).

Checkpoint recovery mirrors the source exactly, including the in-place
mutation by `Array.prototype.sort`: when a draft string is present, the
comparison `JSON.stringify(draft.inputWords.sort()) ===
JSON.stringify(uniqueInputWords.sort())` leaves `uniqueInputWords` sorted, so
the processing order is the sorted order in that case; when the slot is
absent, insertion order is kept.  On successful completion the slot is
removed unconditionally (line 315); when a generation call throws, the error
propagates and the slot keeps its last written value. -/
def processAndGenerateWords (gen : String → Option GenData)
    (speech : String → Option String) (allDecks : List GenDeck)
    (allWords : List WordCard) (slot0 : Option Draft) (words : List String) :
    RunResult :=
  let unique0 := normalizeWords words
  let recovered :=
    match slot0 with
    | none => (unique0, ([] : List WordCard))
    | some draft =>
      let uS := sortWords unique0
      if sortWords draft.inputWords = uS then (uS, draft.generatedCards)
      else (uS, [])
  let u := recovered.1
  let already := recovered.2.map (fun c => jsToLower c.data.word)
  let lookup := buildExistingWordData allDecks allWords
  match genLoop gen speech u already u ⟨recovered.2, lookup, slot0, [], [], [], 0⟩ with
  | (st, some e) => ⟨.error e, st.slot, st.genCalls, st.speechCalls, st.writes⟩
  | (st, none) => ⟨.ok st.gcards, none, st.genCalls, st.speechCalls, st.writes⟩

/-! ## Lemmas about the lookup map -/

theorem mapGet?_eq_none_of_not_has {m : List (String × CardData)} {k : String}
    (h : mapHas m k = false) : mapGet? m k = none := by
  unfold mapGet?
  rw [List.find?_eq_none.mpr]
  · rfl
  · intro p hp hpk
    unfold mapHas at h
    rw [List.any_eq_false] at h
    exact absurd hpk (by simpa using h p hp)

theorem mapHas_mapSet {m : List (String × CardData)} {k w : String} {v : CardData} :
    mapHas (mapSet m k v) w = (mapHas m w || (k == w)) := by
  unfold mapHas mapSet
  by_cases hk : m.any (fun p => p.1 == k)
  · rw [if_pos hk, List.any_map]
    have hany : ∀ p : String × CardData,
        ((if p.1 == k then (k, v) else p).1 == w) = (p.1 == w) := by
      intro p
      by_cases hpk : p.1 == k
      · rw [if_pos hpk]
        have : p.1 = k := by simpa using hpk
        rw [this]
      · rw [if_neg hpk]
    have : ((fun p : String × CardData => p.1 == w) ∘
        fun p => if p.1 == k then (k, v) else p) = fun p : String × CardData => p.1 == w := by
      funext p
      exact hany p
    rw [this]
    by_cases hw : m.any (fun p => p.1 == w)
    · simp [hw]
    · simp only [hw, Bool.false_or]
      rcases Bool.eq_false_or_eq_true (k == w) with hkw | hkw
      · have hkw' : k = w := by simpa using hkw
        exact absurd (hkw' ▸ hk) hw
      · simp [hkw]
  · rw [if_neg hk, List.any_append]
    simp

theorem mapHas_mapSet_ne {m : List (String × CardData)} {k w : String} {v : CardData}
    (h : k ≠ w) : mapHas (mapSet m k v) w = mapHas m w := by
  rw [mapHas_mapSet]
  simp [h]

/-- Helper for tracking the checkpoint slot: the content of the slot after a
sequence of writes, starting from a default. -/
def lastOr : List Draft → Option Draft → Option Draft
  | [], dflt => dflt
  | d :: ws, _ => lastOr ws (some d)

theorem lastOr_nil (dflt : Option Draft) : lastOr [] dflt = dflt := rfl

theorem lastOr_cons (d : Draft) (ws : List Draft) (dflt : Option Draft) :
    lastOr (d :: ws) dflt = lastOr ws (some d) := rfl

/-! ## Invariants of the generation loop -/

theorem genLoop_traces_extend (gen : String → Option GenData)
    (speech : String → Option String) (u : List String) (already : List String) :
    ∀ (l : List String) (st : LoopSt),
      st.gcards <+: (genLoop gen speech u already l st).1.gcards ∧
      st.genCalls <+: (genLoop gen speech u already l st).1.genCalls ∧
      st.writes <+: (genLoop gen speech u already l st).1.writes := by
  intro l
  induction l with
  | nil =>
    intro st
    exact ⟨List.prefix_rfl, List.prefix_rfl, List.prefix_rfl⟩
  | cons w rest ih =>
    intro st
    simp only [genLoop]
    by_cases hskip : already.contains w
    · rw [if_pos hskip]
      exact ih st
    · rw [if_neg hskip]
      cases hget : mapGet? st.lookup w with
      | some cardData =>
        dsimp only
        rcases ih (reuseStep st cardData) with ⟨h1, h2, h3⟩
        exact ⟨(List.prefix_append _ _).trans h1, h2, h3⟩
      | none =>
        cases hgen : gen w with
        | none =>
          dsimp only
          exact ⟨List.prefix_rfl, List.prefix_append _ _, List.prefix_rfl⟩
        | some g =>
          dsimp only
          rcases ih (genStep u st w g (speech w)) with ⟨h1, h2, h3⟩
          exact ⟨(List.prefix_append _ _).trans h1,
            (List.prefix_append _ _).trans h2, (List.prefix_append _ _).trans h3⟩

theorem genLoop_slot_lastOr (gen : String → Option GenData)
    (speech : String → Option String) (u : List String) (already : List String) :
    ∀ (l : List String) (st : LoopSt),
      ∃ Δ, (genLoop gen speech u already l st).1.writes = st.writes ++ Δ ∧
        (genLoop gen speech u already l st).1.slot = lastOr Δ st.slot := by
  intro l
  induction l with
  | nil =>
    intro st
    exact ⟨[], by simp [genLoop, lastOr]⟩
  | cons w rest ih =>
    intro st
    simp only [genLoop]
    by_cases hskip : already.contains w
    · rw [if_pos hskip]
      exact ih st
    · rw [if_neg hskip]
      cases hget : mapGet? st.lookup w with
      | some cardData =>
        dsimp only
        exact ih (reuseStep st cardData)
      | none =>
        cases hgen : gen w with
        | none =>
          dsimp only
          exact ⟨[], by simp [lastOr]⟩
        | some g =>
          dsimp only
          rcases ih (genStep u st w g (speech w)) with ⟨Δ, hw, hs⟩
          refine ⟨⟨u, st.gcards ++
              [⟨uuid st.nextId, GenData.toCardData g (speech w)⟩]⟩ :: Δ, ?_, ?_⟩
          · rw [hw]
            show (st.writes ++ [_]) ++ Δ = _
            rw [List.append_assoc]
            rfl
          · rw [lastOr_cons]
            exact hs

theorem genLoop_writes_shape (gen : String → Option GenData)
    (speech : String → Option String) (u : List String) (already : List String) :
    ∀ (l : List String) (st : LoopSt), ∀ d ∈ (genLoop gen speech u already l st).1.writes,
      d ∈ st.writes ∨
        (d.inputWords = u ∧ d.generatedCards <+: (genLoop gen speech u already l st).1.gcards) := by
  intro l
  induction l with
  | nil =>
    intro st d hd
    exact Or.inl hd
  | cons w rest ih =>
    intro st
    simp only [genLoop]
    by_cases hskip : already.contains w
    · rw [if_pos hskip]
      exact ih st
    · rw [if_neg hskip]
      cases hget : mapGet? st.lookup w with
      | some cardData =>
        dsimp only
        exact ih (reuseStep st cardData)
      | none =>
        cases hgen : gen w with
        | none =>
          dsimp only
          intro d hd
          exact Or.inl hd
        | some g =>
          dsimp only
          intro d hd
          rcases ih (genStep u st w g (speech w)) d hd with h | h
          · have hw : d ∈ st.writes ++ [(⟨u, st.gcards ++
                [⟨uuid st.nextId, GenData.toCardData g (speech w)⟩]⟩ : Draft)] := h
            rw [List.mem_append, List.mem_singleton] at hw
            rcases hw with hw | hw
            · exact Or.inl hw
            · subst hw
              refine Or.inr ⟨rfl, ?_⟩
              exact (genLoop_traces_extend gen speech u already rest
                (genStep u st w g (speech w))).1
          · exact Or.inr h

theorem genLoop_genCalls_new (gen : String → Option GenData)
    (speech : String → Option String) (u : List String) (already : List String) :
    ∀ (l : List String) (st : LoopSt), ∀ w ∈ (genLoop gen speech u already l st).1.genCalls,
      w ∈ st.genCalls ∨ (w ∈ l ∧ already.contains w = false) := by
  intro l
  induction l with
  | nil =>
    intro st w hw
    exact Or.inl hw
  | cons x rest ih =>
    intro st
    simp only [genLoop]
    by_cases hskip : already.contains x
    · rw [if_pos hskip]
      intro w hw
      rcases ih st w hw with h | h
      · exact Or.inl h
      · exact Or.inr ⟨List.mem_cons_of_mem x h.1, h.2⟩
    · rw [if_neg hskip]
      cases hget : mapGet? st.lookup x with
      | some cardData =>
        dsimp only
        intro w hw
        rcases ih (reuseStep st cardData) w hw with h | h
        · exact Or.inl h
        · exact Or.inr ⟨List.mem_cons_of_mem x h.1, h.2⟩
      | none =>
        cases hgen : gen x with
        | none =>
          dsimp only
          intro w hw
          rw [List.mem_append, List.mem_singleton] at hw
          rcases hw with hw | hw
          · exact Or.inl hw
          · rw [hw]
            exact Or.inr ⟨List.mem_cons_self x rest, Bool.eq_false_iff.mpr hskip⟩
        | some g =>
          dsimp only
          intro w hw
          rcases ih (genStep u st x g (speech x)) w hw with h | h
          · have hg2 : w ∈ st.genCalls ++ [x] := h
            rw [List.mem_append, List.mem_singleton] at hg2
            rcases hg2 with hg2 | hg2
            · exact Or.inl hg2
            · rw [hg2]
              exact Or.inr ⟨List.mem_cons_self x rest, Bool.eq_false_iff.mpr hskip⟩
          · exact Or.inr ⟨List.mem_cons_of_mem x h.1, h.2⟩

theorem genLoop_no_error (gen : String → Option GenData)
    (speech : String → Option String) (u : List String) (already : List String)
    (hgen : ∀ w, (gen w).isSome) :
    ∀ (l : List String) (st : LoopSt), (genLoop gen speech u already l st).2 = none := by
  intro l
  induction l with
  | nil =>
    intro st
    rfl
  | cons w rest ih =>
    intro st
    simp only [genLoop]
    by_cases hskip : already.contains w
    · rw [if_pos hskip]
      exact ih st
    · rw [if_neg hskip]
      cases hget : mapGet? st.lookup w with
      | some cardData =>
        dsimp only
        exact ih (reuseStep st cardData)
      | none =>
        cases hg : gen w with
        | none =>
          exact absurd (hg ▸ hgen w) (by simp)
        | some g =>
          dsimp only
          exact ih (genStep u st w g (speech w))

theorem genLoop_gen_coverage (gen : String → Option GenData)
    (speech : String → Option String) (u : List String) (already : List String) :
    ∀ (l : List String) (st : LoopSt) (w : String),
      (genLoop gen speech u already l st).2 = none →
      (∀ x ∈ l, jsToLower x = x) → l.Nodup →
      w ∈ l → already.contains w = false → mapHas st.lookup w = false →
      w ∈ (genLoop gen speech u already l st).1.genCalls := by
  intro l
  induction l with
  | nil =>
    intro st w _ _ _ hw
    exact absurd hw (List.not_mem_nil w)
  | cons x rest ih =>
    intro st w herr hlow hnodup hw ha hhas
    rw [List.nodup_cons] at hnodup
    simp only [genLoop] at herr ⊢
    by_cases hskip : already.contains x
    · rw [if_pos hskip] at herr ⊢
      rcases List.mem_cons.mp hw with hw | hw
      · rw [hw] at ha
        rw [ha] at hskip
        exact absurd hskip Bool.false_ne_true
      · exact ih st w herr (fun y hy => hlow y (List.mem_cons_of_mem x hy))
          hnodup.2 hw ha hhas
    · rw [if_neg hskip] at herr ⊢
      cases hget : mapGet? st.lookup x with
      | some cardData =>
        rw [hget] at herr
        dsimp only at herr ⊢
        rcases List.mem_cons.mp hw with hw | hw
        · rw [hw] at hhas
          rw [mapGet?_eq_none_of_not_has hhas] at hget
          exact absurd hget (by simp)
        · exact ih (reuseStep st cardData) w herr
            (fun y hy => hlow y (List.mem_cons_of_mem x hy)) hnodup.2 hw ha hhas
      | none =>
        rw [hget] at herr
        cases hg : gen x with
        | none =>
          rw [hg] at herr
          dsimp only at herr
          exact absurd herr (by simp)
        | some g =>
          rw [hg] at herr
          dsimp only at herr ⊢
          rcases List.mem_cons.mp hw with hw | hw
          · have hmem : w ∈ (genStep u st x g (speech x)).genCalls := by
              rw [hw]
              simp [genStep]
            exact ((genLoop_traces_extend gen speech u already rest
              (genStep u st x g (speech x))).2.1).subset hmem
          · refine ih (genStep u st x g (speech x)) w herr
              (fun y hy => hlow y (List.mem_cons_of_mem x hy)) hnodup.2 hw ha ?_
            show mapHas (mapSet st.lookup (jsToLower x) _) w = false
            rw [mapHas_mapSet_ne, hhas]
            rw [hlow x (List.mem_cons_self x rest)]
            intro hxw
            exact hnodup.1 (hxw.symm ▸ hw)

theorem genLoop_writes_count (gen : String → Option GenData)
    (speech : String → Option String) (u : List String) (already : List String) :
    ∀ (l : List String) (st : LoopSt),
      (genLoop gen speech u already l st).2 = none →
      (genLoop gen speech u already l st).1.writes.length + st.genCalls.length =
        (genLoop gen speech u already l st).1.genCalls.length + st.writes.length := by
  intro l
  induction l with
  | nil =>
    intro st _
    exact Nat.add_comm _ _
  | cons w rest ih =>
    intro st herr
    simp only [genLoop] at herr ⊢
    by_cases hskip : already.contains w
    · rw [if_pos hskip] at herr ⊢
      exact ih st herr
    · rw [if_neg hskip] at herr ⊢
      cases hget : mapGet? st.lookup w with
      | some cardData =>
        rw [hget] at herr
        dsimp only at herr ⊢
        exact ih (reuseStep st cardData) herr
      | none =>
        rw [hget] at herr
        cases hg : gen w with
        | none =>
          rw [hg] at herr
          dsimp only at herr
          exact absurd herr (by simp)
        | some g =>
          rw [hg] at herr
          dsimp only at herr ⊢
          have hc := ih (genStep u st w g (speech w)) herr
          have hw2 : (genStep u st w g (speech w)).writes.length = st.writes.length + 1 := by
            simp [genStep]
          have hg2 : (genStep u st w g (speech w)).genCalls.length = st.genCalls.length + 1 := by
            simp [genStep]
          rw [hw2, hg2] at hc
          omega

/-! ## Facts about input normalization -/

theorem normalizeWords_lower (ws : List String) :
    ∀ w ∈ normalizeWords ws, jsToLower w = w := by
  intro w hw
  have hsub := dedupKeepFirst_subset _ w hw
  rw [List.mem_filter] at hsub
  rcases hsub with ⟨hmem, -⟩
  rw [List.mem_map] at hmem
  rcases hmem with ⟨x, -, hx⟩
  rw [← hx]
  exact jsToLower_idem (jsTrim x)

theorem normalizeWords_nodup (ws : List String) : (normalizeWords ws).Nodup :=
  dedupKeepFirst_nodup _

theorem sortWords_normalize_nodup (ws : List String) :
    (sortWords (normalizeWords ws)).Nodup :=
  ((sortWords_perm (normalizeWords ws)).nodup_iff).mpr (normalizeWords_nodup ws)

theorem sortWords_normalize_lower (ws : List String) :
    ∀ w ∈ sortWords (normalizeWords ws), jsToLower w = w := by
  intro w hw
  exact normalizeWords_lower ws w ((sortWords_perm (normalizeWords ws)).mem_iff.mp hw)

/-! ## Characterization of the known-word lookup -/

theorem mapGet?_isSome_eq_has (m : List (String × CardData)) (k : String) :
    (mapGet? m k).isSome = mapHas m k := by
  unfold mapGet? mapHas
  cases h : List.find? (fun p => p.1 == k) m with
  | none =>
    rw [List.find?_eq_none] at h
    show false = _
    symm
    rw [List.any_eq_false]
    intro p hp
    simpa using h p hp
  | some p =>
    show true = _
    symm
    rw [List.any_eq_true]
    exact ⟨p, List.mem_of_find?_eq_some h, @List.find?_some _ (fun q => q.1 == k) p m h⟩

theorem mapGet?_setIfAbsent_ne {m : List (String × CardData)} {key k : String}
    {v : CardData} (h : key ≠ k) :
    mapGet? (mapSetIfAbsent m key v) k = mapGet? m k := by
  unfold mapSetIfAbsent
  by_cases hhas : mapHas m key
  · rw [if_pos hhas]
  · rw [if_neg hhas]
    unfold mapSet mapHas at *
    rw [if_neg (by simpa using hhas)]
    unfold mapGet?
    rw [List.find?_append]
    have hkk : (key == k) = false := by simpa using h
    have : List.find? (fun p => p.1 == k) [(key, v)] = none := by
      simp [List.find?, hkk]
    rw [this]
    cases List.find? (fun p => p.1 == k) m <;> rfl

theorem foldl_setIfAbsent_get (cs : List WordCard) (m : List (String × CardData))
    (k : String) :
    mapGet? (cs.foldl (fun m c => mapSetIfAbsent m (jsToLower c.data.word) c.data) m) k =
      (mapGet? m k).or
        ((cs.find? (fun c => jsToLower c.data.word == k)).map (fun c => c.data)) := by
  induction cs generalizing m with
  | nil => simp
  | cons c cs ih =>
    simp only [List.foldl_cons]
    rw [ih]
    by_cases hk : jsToLower c.data.word = k
    · subst hk
      by_cases hhas : mapHas m (jsToLower c.data.word)
      · have hsome : (mapGet? m (jsToLower c.data.word)).isSome := by
          rw [mapGet?_isSome_eq_has, hhas]
        unfold mapSetIfAbsent
        rw [if_pos hhas]
        rcases Option.isSome_iff_exists.mp hsome with ⟨x, hx⟩
        rw [hx]
        rfl
      · unfold mapSetIfAbsent
        rw [if_neg hhas]
        unfold mapSet
        rw [if_neg (by unfold mapHas at hhas; simpa using hhas)]
        have hget : mapGet? m (jsToLower c.data.word) = none := by
          have := mapGet?_isSome_eq_has m (jsToLower c.data.word)
          rw [Bool.eq_false_iff.mpr hhas] at this
          exact Option.not_isSome_iff_eq_none.mp (by rw [this]; simp)
        rw [hget]
        unfold mapGet?
        rw [List.find?_append]
        have hm : List.find? (fun p => p.1 == jsToLower c.data.word) m = none := by
          unfold mapGet? at hget
          exact Option.map_eq_none.mp hget
        rw [hm]
        have : List.find? (fun p => p.1 == jsToLower c.data.word)
            [(jsToLower c.data.word, c.data)] = some (jsToLower c.data.word, c.data) := by
          simp [List.find?]
        rw [this]
        have : List.find? (fun c' : WordCard => jsToLower c'.data.word == jsToLower c.data.word)
            (c :: cs) = some c := by
          simp [List.find?]
        rw [this]
        rfl
    · rw [mapGet?_setIfAbsent_ne hk]
      have hkk : (jsToLower c.data.word == k) = false := by simpa using hk
      have : List.find? (fun c' : WordCard => jsToLower c'.data.word == k) (c :: cs) =
          List.find? (fun c' : WordCard => jsToLower c'.data.word == k) cs := by
        simp [List.find?, hkk]
      rw [this]

theorem buildExistingWordData_get (allDecks : List GenDeck) (allWords : List WordCard)
    (k : String) :
    mapGet? (buildExistingWordData allDecks allWords) k =
      (((allDecks.flatMap (fun d => d.cards)) ++ allWords).find?
        (fun c => jsToLower c.data.word == k)).map (fun c => c.data) := by
  unfold buildExistingWordData
  rw [foldl_setIfAbsent_get]
  rw [List.find?_append]
  have hdeck : ∀ (ds : List GenDeck) (m : List (String × CardData)),
      mapGet? (ds.foldl (fun m deck => deck.cards.foldl
          (fun m card => mapSetIfAbsent m (jsToLower card.data.word) card.data) m) m) k =
        (mapGet? m k).or
          (((ds.flatMap (fun d => d.cards)).find?
            (fun c => jsToLower c.data.word == k)).map (fun c => c.data)) := by
    intro ds
    induction ds with
    | nil => simp
    | cons d ds ihd =>
      intro m
      simp only [List.foldl_cons]
      rw [ihd, foldl_setIfAbsent_get]
      rw [List.flatMap_cons, List.find?_append, Option.or_assoc]
      cases List.find? (fun c => jsToLower c.data.word == k) d.cards with
      | none => simp
      | some c => simp
  rw [hdeck]
  simp only [mapGet?, List.find?_nil, Option.map_none, Option.none_or]
  cases List.find? (fun c => jsToLower c.data.word == k) (allDecks.flatMap fun d => d.cards) with
  | none => simp
  | some c => simp

/-! ## Sample data for concrete runs -/

/-- Minimal generated payload for a word. -/
def sampleGenData (w : String) : GenData :=
  ⟨w, "en", "zh", ⟨"", ""⟩, ⟨"", ""⟩, [], [], [], [], [], []⟩

/-- A generation client that always succeeds. -/
def sampleGen : String → Option GenData :=
  fun w => some (sampleGenData w)

/-- A generation client that always throws. -/
def noGen : String → Option GenData :=
  fun _ => none

/-- A generation client that succeeds for "a" and throws for everything
else. -/
def aOnlyGen : String → Option GenData :=
  fun w => if w = "a" then some (sampleGenData "a") else none

/-- A speech client that always returns no audio. -/
def noSpeech : String → Option String :=
  fun _ => none

/-- Minimal stored card data for a word, with a tag in `synonyms` to make
two versions of the same word distinguishable. -/
def sampleCardData (w tag : String) : CardData :=
  ⟨w, "en", "zh", ⟨"", ""⟩, none, ⟨"", ""⟩, [], [], [tag], [], [], [], none⟩

/-- The processing order of one invocation: the normalized input, sorted in
place by the checkpoint comparison whenever a draft was present. -/
def requestedList (slot0 : Option Draft) (ws : List String) : List String :=
  match slot0 with
  | none => normalizeWords ws
  | some _ => sortWords (normalizeWords ws)

/-! ## C1: dedup precedence between Words and Deck-embedded entries -/

/-- C1 (counterexample): the claim states that for a word present both in the
independent Words collection and embedded in a Deck with different content,
the batch generator's reuse path yields the Words-collection version.  On the
code it does not: `processAndGenerateWords` scans `allDecks` before
`allWords` (geminiService.ts lines 248-262) with first-occurrence-wins
insertion, so at this concrete input the single produced card carries the
deck-embedded data, which differs from the Words-collection data. -/
theorem dedup_precedence_cex :
    (processAndGenerateWords sampleGen noSpeech
        [⟨"d1", "Deck", [⟨"c1", sampleCardData "w" "deck"⟩], "", "en", "zh"⟩]
        [⟨"w1", sampleCardData "w" "words"⟩] none ["w"]).result
      = .ok [⟨"uuid-0", sampleCardData "w" "deck"⟩]
    ∧ sampleCardData "w" "deck" ≠ sampleCardData "w" "words" := by
  constructor
  · rfl
  · intro h
    have h3 := congrArg CardData.synonyms h
    simp [sampleCardData] at h3

/-- C1 (amended): when a word occurs among the cards embedded in the stored
decks, the known-word lookup built by the batch generator maps it to the
first deck-embedded occurrence, regardless of the Words collection: decks are
scanned before words, and the first occurrence wins. -/
theorem dedup_precedence_decks_win (allDecks : List GenDeck) (allWords : List WordCard)
    (k : String) (c : WordCard)
    (hc : (allDecks.flatMap (fun d => d.cards)).find?
        (fun c => jsToLower c.data.word == k) = some c) :
    mapGet? (buildExistingWordData allDecks allWords) k = some c.data := by
  rw [buildExistingWordData_get, List.find?_append, hc]
  rfl

/-- Witness for C1's amended theorem at a concrete store. -/
theorem dedup_precedence_decks_win_witness :
    mapGet? (buildExistingWordData
        [⟨"d1", "Deck", [⟨"c1", sampleCardData "w" "deck"⟩], "", "en", "zh"⟩]
        [⟨"w1", sampleCardData "w" "words"⟩]) "w"
      = some (sampleCardData "w" "deck") :=
  dedup_precedence_decks_win
    [⟨"d1", "Deck", [⟨"c1", sampleCardData "w" "deck"⟩], "", "en", "zh"⟩]
    [⟨"w1", sampleCardData "w" "words"⟩] "w" ⟨"c1", sampleCardData "w" "deck"⟩ rfl

/-! ## Run-level unfolding lemmas -/

theorem run_none_eq (gen : String → Option GenData) (speech : String → Option String)
    (decks : List GenDeck) (words : List WordCard) (ws : List String) :
    processAndGenerateWords gen speech decks words none ws =
      (match genLoop gen speech (normalizeWords ws) [] (normalizeWords ws)
          ⟨[], buildExistingWordData decks words, none, [], [], [], 0⟩ with
      | (st, some e) => ⟨.error e, st.slot, st.genCalls, st.speechCalls, st.writes⟩
      | (st, none) => ⟨.ok st.gcards, none, st.genCalls, st.speechCalls, st.writes⟩) := rfl

theorem run_some_match_eq (gen : String → Option GenData) (speech : String → Option String)
    (decks : List GenDeck) (words : List WordCard) (d : Draft) (ws : List String)
    (h : sortWords d.inputWords = sortWords (normalizeWords ws)) :
    processAndGenerateWords gen speech decks words (some d) ws =
      (match genLoop gen speech (sortWords (normalizeWords ws))
          (d.generatedCards.map (fun c => jsToLower c.data.word))
          (sortWords (normalizeWords ws))
          ⟨d.generatedCards, buildExistingWordData decks words, some d, [], [], [], 0⟩ with
      | (st, some e) => ⟨.error e, st.slot, st.genCalls, st.speechCalls, st.writes⟩
      | (st, none) => ⟨.ok st.gcards, none, st.genCalls, st.speechCalls, st.writes⟩) := by
  unfold processAndGenerateWords
  dsimp only
  rw [if_pos h]

theorem run_some_mismatch_eq (gen : String → Option GenData) (speech : String → Option String)
    (decks : List GenDeck) (words : List WordCard) (d : Draft) (ws : List String)
    (h : sortWords d.inputWords ≠ sortWords (normalizeWords ws)) :
    processAndGenerateWords gen speech decks words (some d) ws =
      (match genLoop gen speech (sortWords (normalizeWords ws)) []
          (sortWords (normalizeWords ws))
          ⟨[], buildExistingWordData decks words, some d, [], [], [], 0⟩ with
      | (st, some e) => ⟨.error e, st.slot, st.genCalls, st.speechCalls, st.writes⟩
      | (st, none) => ⟨.ok st.gcards, none, st.genCalls, st.speechCalls, st.writes⟩) := by
  unfold processAndGenerateWords
  dsimp only
  rw [if_neg h]
  rfl

theorem genLoop_resumption_facts (gen : String → Option GenData)
    (speech : String → Option String) (hgen : ∀ w, (gen w).isSome)
    (u : List String) (already : List String) (st0 : LoopSt)
    (hlow : ∀ x ∈ u, jsToLower x = x) (hnd : u.Nodup) (hg0 : st0.genCalls = []) :
    (genLoop gen speech u already u st0).2 = none ∧
    (∀ w, already.contains w = true →
      w ∉ (genLoop gen speech u already u st0).1.genCalls) ∧
    (∀ w ∈ u, already.contains w = false → mapHas st0.lookup w = false →
      w ∈ (genLoop gen speech u already u st0).1.genCalls) := by
  refine ⟨genLoop_no_error gen speech u already hgen u st0, ?_, ?_⟩
  · intro w hw hcall
    rcases genLoop_genCalls_new gen speech u already u st0 w hcall with h | h
    · rw [hg0] at h
      exact absurd h (List.not_mem_nil w)
    · rw [h.2] at hw
      exact absurd hw Bool.false_ne_true
  · intro w hwu ha hhas
    exact genLoop_gen_coverage gen speech u already u st0 w
      (genLoop_no_error gen speech u already hgen u st0) hlow hnd hwu ha hhas

theorem genLoop_full_facts (gen : String → Option GenData)
    (speech : String → Option String) (u already : List String) (st0 : LoopSt)
    (hw0 : st0.writes = []) (hg0 : st0.genCalls = [])
    (herr : (genLoop gen speech u already u st0).2 = none) :
    (genLoop gen speech u already u st0).1.writes.length =
      (genLoop gen speech u already u st0).1.genCalls.length ∧
    ∀ d ∈ (genLoop gen speech u already u st0).1.writes,
      d.inputWords = u ∧
        d.generatedCards <+: (genLoop gen speech u already u st0).1.gcards := by
  constructor
  · have hc := genLoop_writes_count gen speech u already u st0 herr
    rw [hw0, hg0] at hc
    simpa using hc
  · intro d hd
    rcases genLoop_writes_shape gen speech u already u st0 d hd with h | h
    · rw [hw0] at h
      exact absurd h (List.not_mem_nil d)
    · exact h

/-! ## C2: checkpoint resumption -/

/-- C2: when the batch generator is invoked with words whose normalized set
equals (order-independently, via the sorted comparison) the requested set of
the stored checkpoint, it adopts the checkpoint's completed-cards list as a
prefix of the returned result, never invokes the generation client for a word
recorded as completed, and still invokes it for every requested word that is
neither completed nor present in the local known-word lookup; a checkpoint
whose requested set differs is ignored: the run completes without error and
the generation client is invoked for every requested word absent from the
lookup. -/
theorem checkpoint_resumption (gen : String → Option GenData)
    (speech : String → Option String) (allDecks : List GenDeck)
    (allWords : List WordCard) (d : Draft) (ws : List String)
    (hgen : ∀ w, (gen w).isSome) :
    (sortWords d.inputWords = sortWords (normalizeWords ws) →
      (∃ cards, (processAndGenerateWords gen speech allDecks allWords (some d) ws).result
          = .ok cards ∧ d.generatedCards <+: cards) ∧
      (∀ w ∈ d.generatedCards.map (fun c => jsToLower c.data.word),
        w ∉ (processAndGenerateWords gen speech allDecks allWords (some d) ws).genCalls) ∧
      (∀ w ∈ sortWords (normalizeWords ws),
        w ∉ d.generatedCards.map (fun c => jsToLower c.data.word) →
        mapHas (buildExistingWordData allDecks allWords) w = false →
        w ∈ (processAndGenerateWords gen speech allDecks allWords (some d) ws).genCalls)) ∧
    (sortWords d.inputWords ≠ sortWords (normalizeWords ws) →
      (∃ cards, (processAndGenerateWords gen speech allDecks allWords (some d) ws).result
          = .ok cards) ∧
      (∀ w ∈ sortWords (normalizeWords ws),
        mapHas (buildExistingWordData allDecks allWords) w = false →
        w ∈ (processAndGenerateWords gen speech allDecks allWords (some d) ws).genCalls)) := by
  constructor
  · intro hmatch
    rw [run_some_match_eq gen speech allDecks allWords d ws hmatch]
    rcases genLoop_resumption_facts gen speech hgen (sortWords (normalizeWords ws))
        (d.generatedCards.map (fun c => jsToLower c.data.word))
        ⟨d.generatedCards, buildExistingWordData allDecks allWords, some d, [], [], [], 0⟩
        (sortWords_normalize_lower ws) (sortWords_normalize_nodup ws) rfl
      with ⟨herr, hskip, hcov⟩
    have hext := (genLoop_traces_extend gen speech (sortWords (normalizeWords ws))
        (d.generatedCards.map (fun c => jsToLower c.data.word))
        (sortWords (normalizeWords ws))
        ⟨d.generatedCards, buildExistingWordData allDecks allWords, some d, [], [], [], 0⟩).1
    cases hG : genLoop gen speech (sortWords (normalizeWords ws))
        (d.generatedCards.map (fun c => jsToLower c.data.word))
        (sortWords (normalizeWords ws))
        ⟨d.generatedCards, buildExistingWordData allDecks allWords, some d, [], [], [], 0⟩ with
    | mk st err =>
      rw [hG] at herr hskip hcov hext
      subst herr
      dsimp only
      refine ⟨⟨st.gcards, rfl, hext⟩, ?_, ?_⟩
      · intro w hw
        exact hskip w (by simpa using hw)
      · intro w hwu hnotdone hhas
        exact hcov w hwu (by simpa using hnotdone) hhas
  · intro hmis
    rw [run_some_mismatch_eq gen speech allDecks allWords d ws hmis]
    rcases genLoop_resumption_facts gen speech hgen (sortWords (normalizeWords ws)) []
        ⟨[], buildExistingWordData allDecks allWords, some d, [], [], [], 0⟩
        (sortWords_normalize_lower ws) (sortWords_normalize_nodup ws) rfl
      with ⟨herr, -, hcov⟩
    cases hG : genLoop gen speech (sortWords (normalizeWords ws)) []
        (sortWords (normalizeWords ws))
        ⟨[], buildExistingWordData allDecks allWords, some d, [], [], [], 0⟩ with
    | mk st err =>
      rw [hG] at herr hcov
      subst herr
      dsimp only
      refine ⟨⟨st.gcards, rfl⟩, ?_⟩
      intro w hwu hhas
      exact hcov w hwu rfl hhas

/-- Witness for C2 at a concrete input: requested `["c","a","b"]` against a
checkpoint with requested set `{a,b,c}` and completed `[a]`: no generation
call for `a`, but calls for `b` and `c`; and against a checkpoint with
requested set `{a,b}`: the stale checkpoint is ignored and all three words
are generated. -/
theorem checkpoint_resumption_witness :
    ("a" ∉ (processAndGenerateWords sampleGen noSpeech [] []
        (some ⟨["a", "b", "c"], [⟨"id-a", sampleCardData "a" "x"⟩]⟩)
        ["c", "a", "b"]).genCalls ∧
     "b" ∈ (processAndGenerateWords sampleGen noSpeech [] []
        (some ⟨["a", "b", "c"], [⟨"id-a", sampleCardData "a" "x"⟩]⟩)
        ["c", "a", "b"]).genCalls ∧
     "c" ∈ (processAndGenerateWords sampleGen noSpeech [] []
        (some ⟨["a", "b", "c"], [⟨"id-a", sampleCardData "a" "x"⟩]⟩)
        ["c", "a", "b"]).genCalls) ∧
    ("a" ∈ (processAndGenerateWords sampleGen noSpeech [] []
        (some ⟨["a", "b"], []⟩) ["c", "a", "b"]).genCalls ∧
     (∃ cards, (processAndGenerateWords sampleGen noSpeech [] []
        (some ⟨["a", "b"], []⟩) ["c", "a", "b"]).result = .ok cards)) := by
  have h1 := (checkpoint_resumption sampleGen noSpeech [] []
      ⟨["a", "b", "c"], [⟨"id-a", sampleCardData "a" "x"⟩]⟩ ["c", "a", "b"]
      (fun w => rfl)).1 (by decide)
  have h2 := (checkpoint_resumption sampleGen noSpeech [] []
      ⟨["a", "b"], []⟩ ["c", "a", "b"] (fun w => rfl)).2 (by decide)
  refine ⟨⟨h1.2.1 "a" (by decide), ?_, ?_⟩, ?_, h2.1⟩
  · exact h1.2.2 "b" (by decide) (by decide) (by decide)
  · exact h1.2.2 "c" (by decide) (by decide) (by decide)
  · exact h2.2 "a" (by decide) (by decide)

/-! ## C3: checkpoint writes during a batch -/

/-- C3 (counterexample): the claim states that after the batch generator
completes a word by any path it persists an updated checkpoint.  On the code
the checkpoint write happens only in the fresh-generation branch
(geminiService.ts lines 301-310): at this concrete input the single word is
completed through the reused-from-local-store path, the run succeeds with one
card, yet no checkpoint is ever written. -/
theorem checkpoint_write_any_path_cex :
    (processAndGenerateWords sampleGen noSpeech []
        [⟨"w1", sampleCardData "w" "words"⟩] none ["w"]).result
      = .ok [⟨"uuid-0", sampleCardData "w" "words"⟩] ∧
    (processAndGenerateWords sampleGen noSpeech []
        [⟨"w1", sampleCardData "w" "words"⟩] none ["w"]).writes = [] :=
  ⟨rfl, rfl⟩

/-- C3 (amended): in a batch that completes without error, the generator
persists exactly one checkpoint per freshly generated word (none for reused
or skipped words), and every written checkpoint records the processed
requested list together with the accumulator at that point — a prefix of the
final card list. -/
theorem checkpoint_write_on_generation_only (gen : String → Option GenData)
    (speech : String → Option String) (allDecks : List GenDeck)
    (allWords : List WordCard) (slot0 : Option Draft) (ws : List String)
    (cards : List WordCard)
    (hok : (processAndGenerateWords gen speech allDecks allWords slot0 ws).result
      = .ok cards) :
    (processAndGenerateWords gen speech allDecks allWords slot0 ws).writes.length =
      (processAndGenerateWords gen speech allDecks allWords slot0 ws).genCalls.length ∧
    ∀ d ∈ (processAndGenerateWords gen speech allDecks allWords slot0 ws).writes,
      d.inputWords = requestedList slot0 ws ∧ d.generatedCards <+: cards := by
  cases slot0 with
  | none =>
    rw [run_none_eq] at hok ⊢
    cases hG : genLoop gen speech (normalizeWords ws) [] (normalizeWords ws)
        ⟨[], buildExistingWordData allDecks allWords, none, [], [], [], 0⟩ with
    | mk st err =>
      rw [hG] at hok
      cases err with
      | some e => exact absurd hok (by simp)
      | none =>
        dsimp only at hok ⊢
        have hcards : st.gcards = cards := Except.ok.inj hok
        have hfacts := genLoop_full_facts gen speech (normalizeWords ws) []
          ⟨[], buildExistingWordData allDecks allWords, none, [], [], [], 0⟩ rfl rfl
          (by rw [hG])
        rw [hG] at hfacts
        dsimp only at hfacts
        rw [hcards] at hfacts
        exact ⟨hfacts.1, fun d hd => (hfacts.2 d hd)⟩
  | some d0 =>
    by_cases hmatch : sortWords d0.inputWords = sortWords (normalizeWords ws)
    · rw [run_some_match_eq gen speech allDecks allWords d0 ws hmatch] at hok ⊢
      cases hG : genLoop gen speech (sortWords (normalizeWords ws))
          (d0.generatedCards.map (fun c => jsToLower c.data.word))
          (sortWords (normalizeWords ws))
          ⟨d0.generatedCards, buildExistingWordData allDecks allWords, some d0,
            [], [], [], 0⟩ with
      | mk st err =>
        rw [hG] at hok
        cases err with
        | some e => exact absurd hok (by simp)
        | none =>
          dsimp only at hok ⊢
          have hcards : st.gcards = cards := Except.ok.inj hok
          have hfacts := genLoop_full_facts gen speech (sortWords (normalizeWords ws))
            (d0.generatedCards.map (fun c => jsToLower c.data.word))
            ⟨d0.generatedCards, buildExistingWordData allDecks allWords, some d0,
              [], [], [], 0⟩ rfl rfl (by rw [hG])
          rw [hG] at hfacts
          dsimp only at hfacts
          rw [hcards] at hfacts
          exact ⟨hfacts.1, fun d hd => (hfacts.2 d hd)⟩
    · rw [run_some_mismatch_eq gen speech allDecks allWords d0 ws hmatch] at hok ⊢
      cases hG : genLoop gen speech (sortWords (normalizeWords ws)) []
          (sortWords (normalizeWords ws))
          ⟨[], buildExistingWordData allDecks allWords, some d0, [], [], [], 0⟩ with
      | mk st err =>
        rw [hG] at hok
        cases err with
        | some e => exact absurd hok (by simp)
        | none =>
          dsimp only at hok ⊢
          have hcards : st.gcards = cards := Except.ok.inj hok
          have hfacts := genLoop_full_facts gen speech (sortWords (normalizeWords ws)) []
            ⟨[], buildExistingWordData allDecks allWords, some d0, [], [], [], 0⟩
            rfl rfl (by rw [hG])
          rw [hG] at hfacts
          dsimp only at hfacts
          rw [hcards] at hfacts
          exact ⟨hfacts.1, fun d hd => (hfacts.2 d hd)⟩

/-- Witness for C3's amended theorem: a successful two-word run in which one
word is generated and one is reused performs exactly one checkpoint write,
recording the requested list and a prefix of the final cards. -/
theorem checkpoint_write_on_generation_only_witness :
    (processAndGenerateWords sampleGen noSpeech []
        [⟨"w1", sampleCardData "b" "words"⟩] none ["a", "b"]).writes.length =
      (processAndGenerateWords sampleGen noSpeech []
        [⟨"w1", sampleCardData "b" "words"⟩] none ["a", "b"]).genCalls.length := by
  have h := checkpoint_write_on_generation_only sampleGen noSpeech []
    [⟨"w1", sampleCardData "b" "words"⟩] none ["a", "b"]
    [⟨"uuid-0", (sampleGenData "a").toCardData none⟩,
     ⟨"uuid-1", sampleCardData "b" "words"⟩] rfl
  exact h.1

/-! ## C4: checkpoint preserved on failure, cleared on success -/

/-- C4: if the generation call throws for some word, the run propagates the
error and does not clear the checkpoint slot — the slot holds the last
checkpoint written during the run (or the initial slot content when nothing
was written), and every checkpoint written during the run records the
processed requested list (with the partial accumulator); after a batch that
completes the loop without error, the slot is removed. -/
theorem checkpoint_preserved_on_failure_cleared_on_success
    (gen : String → Option GenData) (speech : String → Option String)
    (allDecks : List GenDeck) (allWords : List WordCard) (slot0 : Option Draft)
    (ws : List String) :
    (∀ e, (processAndGenerateWords gen speech allDecks allWords slot0 ws).result
        = .error e →
      (processAndGenerateWords gen speech allDecks allWords slot0 ws).slot =
        lastOr (processAndGenerateWords gen speech allDecks allWords slot0 ws).writes
          slot0 ∧
      ∀ d ∈ (processAndGenerateWords gen speech allDecks allWords slot0 ws).writes,
        d.inputWords = requestedList slot0 ws) ∧
    (∀ cards, (processAndGenerateWords gen speech allDecks allWords slot0 ws).result
        = .ok cards →
      (processAndGenerateWords gen speech allDecks allWords slot0 ws).slot = none) := by
  have main : ∀ (u already : List String) (cards0 : List WordCard),
      let st0 : LoopSt := ⟨cards0, buildExistingWordData allDecks allWords, slot0,
        [], [], [], 0⟩
      let out : RunResult := match genLoop gen speech u already u st0 with
        | (st, some e) => ⟨.error e, st.slot, st.genCalls, st.speechCalls, st.writes⟩
        | (st, none) => ⟨.ok st.gcards, none, st.genCalls, st.speechCalls, st.writes⟩
      (∀ e, out.result = .error e →
        out.slot = lastOr out.writes slot0 ∧ ∀ d ∈ out.writes, d.inputWords = u) ∧
      (∀ cards, out.result = .ok cards → out.slot = none) := by
    intro u already cards0
    dsimp only
    cases hG : genLoop gen speech u already u
        ⟨cards0, buildExistingWordData allDecks allWords, slot0, [], [], [], 0⟩ with
    | mk st err =>
      cases err with
      | some e =>
        dsimp only
        constructor
        · intro e' he'
          have hslot := genLoop_slot_lastOr gen speech u already u
            ⟨cards0, buildExistingWordData allDecks allWords, slot0, [], [], [], 0⟩
          rw [hG] at hslot
          rcases hslot with ⟨Δ, hw, hs⟩
          dsimp only at hw hs
          rw [List.nil_append] at hw
          constructor
          · rw [hs, hw]
          · intro d hd
            rcases genLoop_writes_shape gen speech u already u
                ⟨cards0, buildExistingWordData allDecks allWords, slot0, [], [], [], 0⟩
                d (by rw [hG]; exact hd) with h | h
            · exact absurd h (List.not_mem_nil d)
            · exact h.1
        · intro cards hc
          exact absurd hc (by simp)
      | none =>
        dsimp only
        constructor
        · intro e' he'
          exact absurd he' (by simp)
        · intro cards _
          rfl
  constructor
  · intro e he
    cases slot0 with
    | none =>
      rw [run_none_eq] at he ⊢
      exact ((main (normalizeWords ws) [] []).1 e he).imp id
        (fun h d hd => h d hd)
    | some d0 =>
      by_cases hmatch : sortWords d0.inputWords = sortWords (normalizeWords ws)
      · rw [run_some_match_eq gen speech allDecks allWords d0 ws hmatch] at he ⊢
        exact ((main (sortWords (normalizeWords ws))
          (d0.generatedCards.map (fun c => jsToLower c.data.word))
          d0.generatedCards).1 e he).imp id (fun h d hd => h d hd)
      · rw [run_some_mismatch_eq gen speech allDecks allWords d0 ws hmatch] at he ⊢
        exact ((main (sortWords (normalizeWords ws)) [] []).1 e he).imp id
          (fun h d hd => h d hd)
  · intro cards hc
    cases slot0 with
    | none =>
      rw [run_none_eq] at hc ⊢
      exact (main (normalizeWords ws) [] []).2 cards hc
    | some d0 =>
      by_cases hmatch : sortWords d0.inputWords = sortWords (normalizeWords ws)
      · rw [run_some_match_eq gen speech allDecks allWords d0 ws hmatch] at hc ⊢
        exact (main (sortWords (normalizeWords ws))
          (d0.generatedCards.map (fun c => jsToLower c.data.word))
          d0.generatedCards).2 cards hc
      · rw [run_some_mismatch_eq gen speech allDecks allWords d0 ws hmatch] at hc ⊢
        exact (main (sortWords (normalizeWords ws)) [] []).2 cards hc

/-- Witness for C4: a run failing on the second word keeps the checkpoint
written for the first word; a successful run ends with the slot absent. -/
theorem checkpoint_preserved_on_failure_witness :
    (processAndGenerateWords aOnlyGen noSpeech [] [] none ["a", "b"]).slot =
      lastOr (processAndGenerateWords aOnlyGen noSpeech [] [] none ["a", "b"]).writes
        none ∧
    (processAndGenerateWords sampleGen noSpeech [] [] none ["a"]).slot = none := by
  constructor
  · exact ((checkpoint_preserved_on_failure_cleared_on_success aOnlyGen noSpeech
      [] [] none ["a", "b"]).1 "Failed to generate flashcard data for \"b\"." rfl).1
  · exact (checkpoint_preserved_on_failure_cleared_on_success sampleGen noSpeech
      [] [] none ["a"]).2 [⟨"uuid-0", (sampleGenData "a").toCardData none⟩] rfl

/-! ## C9: behaviour on empty input -/

/-- C9 (counterexample): the claim states that on an empty input the recovery
slot is neither written nor deleted.  On the code `removeItem(DRAFT_KEY)`
runs unconditionally on loop completion: with an empty input and a stale
checkpoint present, the final slot is empty — the stale checkpoint was
deleted. -/
theorem empty_input_checkpoint_cex :
    (processAndGenerateWords sampleGen noSpeech [] []
        (some ⟨["a"], []⟩) []).slot = none ∧
    some (⟨["a"], []⟩ : Draft) ≠ (none : Option Draft) :=
  ⟨rfl, by simp⟩

/-- C9 (amended): an input whose entries all normalize away yields no
generation calls, no speech calls and no checkpoint writes; the result is the
adopted completed list of a checkpoint whose requested set is empty (empty
otherwise), and the recovery slot is unconditionally cleared at completion. -/
theorem empty_input_no_calls (gen : String → Option GenData)
    (speech : String → Option String) (allDecks : List GenDeck)
    (allWords : List WordCard) (slot0 : Option Draft) (ws : List String)
    (h : normalizeWords ws = []) :
    (processAndGenerateWords gen speech allDecks allWords slot0 ws).genCalls = [] ∧
    (processAndGenerateWords gen speech allDecks allWords slot0 ws).speechCalls = [] ∧
    (processAndGenerateWords gen speech allDecks allWords slot0 ws).writes = [] ∧
    (processAndGenerateWords gen speech allDecks allWords slot0 ws).slot = none ∧
    (processAndGenerateWords gen speech allDecks allWords slot0 ws).result =
      .ok (match slot0 with
        | none => []
        | some d => if sortWords d.inputWords = [] then d.generatedCards else []) := by
  cases slot0 with
  | none =>
    rw [run_none_eq, h]
    exact ⟨rfl, rfl, rfl, rfl, rfl⟩
  | some d =>
    by_cases hd : sortWords d.inputWords = []
    · have hmatch : sortWords d.inputWords = sortWords (normalizeWords ws) := by
        rw [h, hd]
        rfl
      rw [run_some_match_eq gen speech allDecks allWords d ws hmatch, h]
      refine ⟨rfl, rfl, rfl, rfl, ?_⟩
      dsimp only
      rw [if_pos hd]
      rfl
    · have hmis : sortWords d.inputWords ≠ sortWords (normalizeWords ws) := by
        rw [h]
        exact hd
      rw [run_some_mismatch_eq gen speech allDecks allWords d ws hmis, h]
      refine ⟨rfl, rfl, rfl, rfl, ?_⟩
      dsimp only
      rw [if_neg hd]
      rfl

/-- Witness for C9's amended theorem at a concrete input that normalizes to
nothing. -/
theorem empty_input_no_calls_witness :
    (processAndGenerateWords sampleGen noSpeech [] [] none ["  ", ""]).genCalls = [] ∧
    (processAndGenerateWords sampleGen noSpeech [] [] none ["  ", ""]).result
      = .ok [] := by
  have h := empty_input_no_calls sampleGen noSpeech [] [] none ["  ", ""] (by decide)
  exact ⟨h.1, h.2.2.2.2⟩

/-! ## JSON value model for the content store (`src/services/storageService.ts`)

Stored records are JSON values (the output of `JSON.parse`), modelled by
`Value`.  JavaScript `undefined` does not occur inside parsed JSON; a missing
object field is `Option.none` of a field lookup.  Property access on `null`
throws a `TypeError`, modelled by `Except Unit`. -/

/-- A JSON value. -/
inductive Value where
  | vNull
  | vBool (b : Bool)
  | vNum (n : Int)
  | vStr (s : String)
  | vArr (elems : List Value)
  | vObj (fields : List (String × Value))
  deriving Repr

/-- First-match field lookup in an object's field list. -/
def lookupField : List (String × Value) → String → Option Value
  | [], _ => none
  | (k0, v0) :: rest, k => if k0 = k then some v0 else lookupField rest k

/-- Model of JavaScript named-property read `v.k` for the non-index names
used by the migration functions: defined on objects, `undefined` (here
`none`) on other non-null values.  Reads on `null` are handled separately
(they throw). -/
def Value.getField : Value → String → Option Value
  | .vObj fs, k => lookupField fs k
  | _, _ => none

/-- JavaScript truthiness of a JSON value. -/
def truthy : Value → Bool
  | .vNull => false
  | .vBool b => b
  | .vNum n => n != 0
  | .vStr s => s != ""
  | .vArr _ => true
  | .vObj _ => true

/-- Model of `x || dflt` applied to a possibly missing field value. -/
def jsOr (x : Option Value) (dflt : Value) : Value :=
  match x with
  | some v => if truthy v then v else dflt
  | none => dflt

/-- Model of `Array.isArray(x) ? x : []` applied to a possibly missing field
value. -/
def arrOrEmpty (x : Option Value) : Value :=
  match x with
  | some (.vArr a) => .vArr a
  | _ => .vArr []

/-- Assign a field in an object literal: overwrite in place when the key is
already present, append otherwise (JavaScript property-creation order). -/
def setKey : List (String × Value) → String → Value → List (String × Value)
  | [], k, v => [(k, v)]
  | (k0, v0) :: rest, k, v =>
    if k0 = k then (k, v) :: rest
    else (k0, v0) :: setKey rest k v

/-- Index-keyed fields of a list (object spread of an array or string). -/
def enumFields (i : Nat) : List Value → List (String × Value)
  | [] => []
  | v :: vs => (toString i, v) :: enumFields (i + 1) vs

/-- Own enumerable properties copied by object spread `{...v}`: the fields of
an object, the indexed elements of an array, the indexed one-character
strings of a string, nothing for other primitives (spreading `null` yields
`{}`). -/
def spreadOwn : Value → List (String × Value)
  | .vObj fs => fs
  | .vArr es => enumFields 0 es
  | .vStr s => enumFields 0 (s.data.map (fun c => Value.vStr ⟨[c]⟩))
  | _ => []

/-- Default for a missing `phonetics` field. -/
def phoneticsDefault : Value :=
  .vObj [("uk", .vStr ""), ("us", .vStr "")]

/-- Default for a missing `partOfSpeech` field. -/
def partOfSpeechDefault : Value :=
  .vObj [("abbreviation", .vStr ""), ("nativeName", .vStr "")]

/-- The object literal built by `migrateWordCard` (storageService.ts lines
272-288): spread of the record followed by the ten field assignments, in
source order. -/
def migrateWordCardFields (card : Value) (base : List (String × Value)) :
    List (String × Value) :=
  let o := setKey base "targetLanguage" (jsOr (card.getField "targetLanguage") (.vStr "en"))
  let o := setKey o "nativeLanguage" (jsOr (card.getField "nativeLanguage") (.vStr "zh"))
  let o := setKey o "phonetics" (jsOr (card.getField "phonetics") phoneticsDefault)
  let o := setKey o "partOfSpeech" (jsOr (card.getField "partOfSpeech") partOfSpeechDefault)
  let o := setKey o "definitions" (arrOrEmpty (card.getField "definitions"))
  let o := setKey o "collocations" (arrOrEmpty (card.getField "collocations"))
  let o := setKey o "synonyms" (arrOrEmpty (card.getField "synonyms"))
  let o := setKey o "antonyms" (arrOrEmpty (card.getField "antonyms"))
  let o := setKey o "wordFamily" (arrOrEmpty (card.getField "wordFamily"))
  let o := setKey o "mnemonic" (arrOrEmpty (card.getField "mnemonic"))
  o

/-- Shallow embedding of `migrateWordCard`: property access on `null` throws
(`TypeError`), every other value is spread and upgraded field by field. -/
def migrateWordCard (card : Value) : Except Unit Value :=
  match card with
  | .vNull => .error ()
  | _ => .ok (.vObj (migrateWordCardFields card (spreadOwn card)))

/-- The object literal built by `migrateDeck` minus the cards mapping. -/
def migrateDeckFields (deck : Value) (cardsValue : Value)
    (base : List (String × Value)) : List (String × Value) :=
  let o := setKey base "targetLanguage" (jsOr (deck.getField "targetLanguage") (.vStr "en"))
  let o := setKey o "nativeLanguage" (jsOr (deck.getField "nativeLanguage") (.vStr "zh"))
  let o := setKey o "cards" cardsValue
  o

/-- Model of `cards.map(migrateWordCard)`: apply the card migration to every
element in order; the first thrown `TypeError` propagates. -/
def mapCards : List Value → Except Unit (List Value)
  | [] => .ok []
  | c :: cs => do
    let v ← migrateWordCard c
    let vs ← mapCards cs
    .ok (v :: vs)

/-- Shallow embedding of `migrateDeck` (storageService.ts lines 290-297):
when `cards` is an array, `migrateWordCard` is applied to every element
(whatever its type); otherwise `cards` becomes `[]`. -/
def migrateDeck (deck : Value) : Except Unit Value :=
  match deck with
  | .vNull => .error ()
  | _ =>
    match deck.getField "cards" with
    | some (.vArr cs) => do
      let cs' ← mapCards cs
      .ok (.vObj (migrateDeckFields deck (.vArr cs') (spreadOwn deck)))
    | _ => .ok (.vObj (migrateDeckFields deck (.vArr []) (spreadOwn deck)))

/-- The object literal built by `migrateStory`. -/
def migrateStoryFields (story : Value) (base : List (String × Value)) :
    List (String × Value) :=
  let o := setKey base "targetLanguage" (jsOr (story.getField "targetLanguage") (.vStr "en"))
  let o := setKey o "nativeLanguage" (jsOr (story.getField "nativeLanguage") (.vStr "zh"))
  o

/-- Shallow embedding of `migrateStory` (storageService.ts lines 299-305). -/
def migrateStory (story : Value) : Except Unit Value :=
  match story with
  | .vNull => .error ()
  | _ => .ok (.vObj (migrateStoryFields story (spreadOwn story)))

/-! ## Migration is idempotent -/

theorem lookupField_setKey (o : List (String × Value)) (k : String) (v : Value)
    (k' : String) :
    lookupField (setKey o k v) k' = if k = k' then some v else lookupField o k' := by
  induction o with
  | nil =>
    simp [setKey, lookupField]
  | cons p rest ih =>
    rcases p with ⟨k0, v0⟩
    simp only [setKey]
    by_cases h0 : k0 = k
    · rw [if_pos h0]
      subst h0
      simp only [lookupField]
      by_cases h1 : k0 = k'
      · rw [if_pos h1, if_pos h1]
      · rw [if_neg h1, if_neg h1, if_neg h1]
    · rw [if_neg h0]
      simp only [lookupField]
      by_cases h1 : k0 = k'
      · have h2 : ¬ k = k' := fun hk => h0 (by rw [hk, h1])
        rw [if_pos h1, if_neg h2, if_pos h1]
      · rw [if_neg h1, ih, if_neg h1]

theorem setKey_id {o : List (String × Value)} {k : String} {v : Value}
    (h : lookupField o k = some v) : setKey o k v = o := by
  induction o with
  | nil =>
    simp [lookupField] at h
  | cons p rest ih =>
    rcases p with ⟨k0, v0⟩
    simp only [lookupField] at h
    simp only [setKey]
    by_cases h0 : k0 = k
    · rw [if_pos h0]
      rw [if_pos h0] at h
      have hv : v0 = v := Option.some.inj h
      rw [h0, hv]
    · rw [if_neg h0]
      rw [if_neg h0] at h
      rw [ih h]

theorem truthy_jsOr (x : Option Value) (dflt : Value) (hd : truthy dflt = true) :
    truthy (jsOr x dflt) = true := by
  unfold jsOr
  cases x with
  | none => exact hd
  | some v =>
    dsimp only
    by_cases hv : truthy v = true
    · rw [if_pos hv]
      exact hv
    · rw [if_neg hv]
      exact hd

theorem jsOr_some_truthy {v : Value} (dflt : Value) (h : truthy v = true) :
    jsOr (some v) dflt = v := by
  unfold jsOr
  dsimp only
  rw [if_pos h]

theorem arrOrEmpty_isArr (x : Option Value) : ∃ a, arrOrEmpty x = .vArr a := by
  unfold arrOrEmpty
  cases x with
  | none => exact ⟨[], rfl⟩
  | some v =>
    cases v with
    | vArr a => exact ⟨a, rfl⟩
    | vNull => exact ⟨[], rfl⟩
    | vBool b => exact ⟨[], rfl⟩
    | vNum n => exact ⟨[], rfl⟩
    | vStr s => exact ⟨[], rfl⟩
    | vObj fs => exact ⟨[], rfl⟩

theorem arrOrEmpty_arr (a : List Value) : arrOrEmpty (some (.vArr a)) = .vArr a := rfl

theorem truthy_arrOrEmpty (x : Option Value) : truthy (arrOrEmpty x) = true := by
  rcases arrOrEmpty_isArr x with ⟨a, ha⟩
  rw [ha]
  rfl

theorem arrOrEmpty_self (x : Option Value) :
    arrOrEmpty (some (arrOrEmpty x)) = arrOrEmpty x := by
  rcases arrOrEmpty_isArr x with ⟨a, ha⟩
  rw [ha]
  rfl

/-- The field list built by `migrateWordCardFields` is stable: rebuilding it
from the object it denotes is the identity. -/
theorem migrateWordCardFields_fix (card : Value) (base : List (String × Value)) :
    migrateWordCardFields (.vObj (migrateWordCardFields card base))
        (migrateWordCardFields card base) =
      migrateWordCardFields card base := by
  have h1 : lookupField (migrateWordCardFields card base) "targetLanguage" =
      some (jsOr (card.getField "targetLanguage") (.vStr "en")) := by
    simp [migrateWordCardFields, lookupField_setKey]
  have h2 : lookupField (migrateWordCardFields card base) "nativeLanguage" =
      some (jsOr (card.getField "nativeLanguage") (.vStr "zh")) := by
    simp [migrateWordCardFields, lookupField_setKey]
  have h3 : lookupField (migrateWordCardFields card base) "phonetics" =
      some (jsOr (card.getField "phonetics") phoneticsDefault) := by
    simp [migrateWordCardFields, lookupField_setKey]
  have h4 : lookupField (migrateWordCardFields card base) "partOfSpeech" =
      some (jsOr (card.getField "partOfSpeech") partOfSpeechDefault) := by
    simp [migrateWordCardFields, lookupField_setKey]
  have h5 : lookupField (migrateWordCardFields card base) "definitions" =
      some (arrOrEmpty (card.getField "definitions")) := by
    simp [migrateWordCardFields, lookupField_setKey]
  have h6 : lookupField (migrateWordCardFields card base) "collocations" =
      some (arrOrEmpty (card.getField "collocations")) := by
    simp [migrateWordCardFields, lookupField_setKey]
  have h7 : lookupField (migrateWordCardFields card base) "synonyms" =
      some (arrOrEmpty (card.getField "synonyms")) := by
    simp [migrateWordCardFields, lookupField_setKey]
  have h8 : lookupField (migrateWordCardFields card base) "antonyms" =
      some (arrOrEmpty (card.getField "antonyms")) := by
    simp [migrateWordCardFields, lookupField_setKey]
  have h9 : lookupField (migrateWordCardFields card base) "wordFamily" =
      some (arrOrEmpty (card.getField "wordFamily")) := by
    simp [migrateWordCardFields, lookupField_setKey]
  have h10 : lookupField (migrateWordCardFields card base) "mnemonic" =
      some (arrOrEmpty (card.getField "mnemonic")) := by
    simp [migrateWordCardFields, lookupField_setKey]
  generalize hO : migrateWordCardFields card base = O at h1 h2 h3 h4 h5 h6 h7 h8 h9 h10 ⊢
  unfold migrateWordCardFields
  simp only [Value.getField]
  rw [h1, h2, h3, h4, h5, h6, h7, h8, h9, h10]
  rw [jsOr_some_truthy (Value.vStr "en") (truthy_jsOr _ (Value.vStr "en") (by decide)),
    jsOr_some_truthy (Value.vStr "zh") (truthy_jsOr _ (Value.vStr "zh") (by decide)),
    jsOr_some_truthy phoneticsDefault (truthy_jsOr _ phoneticsDefault (by decide)),
    jsOr_some_truthy partOfSpeechDefault (truthy_jsOr _ partOfSpeechDefault (by decide)),
    arrOrEmpty_self, arrOrEmpty_self, arrOrEmpty_self, arrOrEmpty_self,
    arrOrEmpty_self, arrOrEmpty_self]
  rw [setKey_id h1, setKey_id h2, setKey_id h3, setKey_id h4, setKey_id h5,
    setKey_id h6, setKey_id h7, setKey_id h8, setKey_id h9, setKey_id h10]

theorem migrateWordCard_isObj (c v : Value) (h : migrateWordCard c = .ok v) :
    v = .vObj (migrateWordCardFields c (spreadOwn c)) := by
  cases c with
  | vNull => exact absurd h (by simp [migrateWordCard])
  | vBool b => exact (Except.ok.inj h).symm
  | vNum n => exact (Except.ok.inj h).symm
  | vStr s => exact (Except.ok.inj h).symm
  | vArr es => exact (Except.ok.inj h).symm
  | vObj fs => exact (Except.ok.inj h).symm

theorem migrateWordCard_fix {c v : Value} (h : migrateWordCard c = .ok v) :
    migrateWordCard v = .ok v := by
  have hv := migrateWordCard_isObj c v h
  subst hv
  show Except.ok (Value.vObj (migrateWordCardFields
    (Value.vObj (migrateWordCardFields c (spreadOwn c)))
    (migrateWordCardFields c (spreadOwn c)))) = _
  rw [migrateWordCardFields_fix]

theorem mapCards_fix {cs cs' : List Value} (h : mapCards cs = .ok cs') :
    mapCards cs' = .ok cs' := by
  induction cs generalizing cs' with
  | nil =>
    have : cs' = [] := (Except.ok.inj h).symm
    subst this
    rfl
  | cons c cs ih =>
    simp only [mapCards] at h
    cases hc : migrateWordCard c with
    | error e =>
      rw [hc] at h
      exact absurd h (by simp [Bind.bind, Except.bind])
    | ok v =>
      rw [hc] at h
      cases hcs : mapCards cs with
      | error e =>
        rw [hcs] at h
        exact absurd h (by simp [Bind.bind, Except.bind])
      | ok vs =>
        rw [hcs] at h
        simp only [Bind.bind, Except.bind] at h
        have : v :: vs = cs' := Except.ok.inj h
        subst this
        simp only [mapCards]
        rw [migrateWordCard_fix hc, ih hcs]
        rfl

theorem migrateStoryFields_fix (story : Value) (base : List (String × Value)) :
    migrateStoryFields (.vObj (migrateStoryFields story base))
        (migrateStoryFields story base) =
      migrateStoryFields story base := by
  have h1 : lookupField (migrateStoryFields story base) "targetLanguage" =
      some (jsOr (story.getField "targetLanguage") (.vStr "en")) := by
    simp [migrateStoryFields, lookupField_setKey]
  have h2 : lookupField (migrateStoryFields story base) "nativeLanguage" =
      some (jsOr (story.getField "nativeLanguage") (.vStr "zh")) := by
    simp [migrateStoryFields, lookupField_setKey]
  generalize hO : migrateStoryFields story base = O at h1 h2 ⊢
  unfold migrateStoryFields
  simp only [Value.getField]
  rw [h1, h2]
  rw [jsOr_some_truthy (Value.vStr "en") (truthy_jsOr _ (Value.vStr "en") (by decide)),
    jsOr_some_truthy (Value.vStr "zh") (truthy_jsOr _ (Value.vStr "zh") (by decide))]
  rw [setKey_id h1, setKey_id h2]

theorem migrateStory_fix {c v : Value} (h : migrateStory c = .ok v) :
    migrateStory v = .ok v := by
  have hv : v = .vObj (migrateStoryFields c (spreadOwn c)) := by
    cases c with
    | vNull => exact absurd h (by simp [migrateStory])
    | vBool b => exact (Except.ok.inj h).symm
    | vNum n => exact (Except.ok.inj h).symm
    | vStr s => exact (Except.ok.inj h).symm
    | vArr es => exact (Except.ok.inj h).symm
    | vObj fs => exact (Except.ok.inj h).symm
  subst hv
  show Except.ok (Value.vObj (migrateStoryFields
    (Value.vObj (migrateStoryFields c (spreadOwn c)))
    (migrateStoryFields c (spreadOwn c)))) = _
  rw [migrateStoryFields_fix]

theorem migrateDeckFields_fix (deck : Value) (cv : Value) (base : List (String × Value)) :
    migrateDeckFields (.vObj (migrateDeckFields deck cv base)) cv
        (migrateDeckFields deck cv base) =
      migrateDeckFields deck cv base := by
  have h1 : lookupField (migrateDeckFields deck cv base) "targetLanguage" =
      some (jsOr (deck.getField "targetLanguage") (.vStr "en")) := by
    simp [migrateDeckFields, lookupField_setKey]
  have h2 : lookupField (migrateDeckFields deck cv base) "nativeLanguage" =
      some (jsOr (deck.getField "nativeLanguage") (.vStr "zh")) := by
    simp [migrateDeckFields, lookupField_setKey]
  have h3 : lookupField (migrateDeckFields deck cv base) "cards" = some cv := by
    simp [migrateDeckFields, lookupField_setKey]
  generalize hO : migrateDeckFields deck cv base = O at h1 h2 h3 ⊢
  unfold migrateDeckFields
  simp only [Value.getField]
  rw [h1, h2]
  rw [jsOr_some_truthy (Value.vStr "en") (truthy_jsOr _ (Value.vStr "en") (by decide)),
    jsOr_some_truthy (Value.vStr "zh") (truthy_jsOr _ (Value.vStr "zh") (by decide))]
  rw [setKey_id h1, setKey_id h2, setKey_id h3]

theorem migrateDeckFields_lookup_cards (deck : Value) (cv : Value)
    (base : List (String × Value)) :
    lookupField (migrateDeckFields deck cv base) "cards" = some cv := by
  simp [migrateDeckFields, lookupField_setKey]

theorem migrateDeck_shape {c v : Value} (h : migrateDeck c = .ok v) :
    ∃ cs', mapCards cs' = .ok cs' ∧
      v = .vObj (migrateDeckFields c (.vArr cs') (spreadOwn c)) := by
  unfold migrateDeck at h
  cases c with
  | vNull => exact absurd h (by simp)
  | vBool b => exact ⟨[], rfl, (Except.ok.inj h).symm⟩
  | vNum n => exact ⟨[], rfl, (Except.ok.inj h).symm⟩
  | vStr s => exact ⟨[], rfl, (Except.ok.inj h).symm⟩
  | vArr es => exact ⟨[], rfl, (Except.ok.inj h).symm⟩
  | vObj fs =>
    revert h
    show (match (Value.vObj fs).getField "cards" with
      | some (.vArr cs) => do
        let cs' ← mapCards cs
        Except.ok (.vObj (migrateDeckFields (.vObj fs) (.vArr cs')
          (spreadOwn (.vObj fs))))
      | _ => Except.ok (.vObj (migrateDeckFields (.vObj fs) (.vArr [])
          (spreadOwn (.vObj fs))))) = Except.ok v → _
    cases hcf : (Value.vObj fs).getField "cards" with
    | none =>
      intro h
      exact ⟨[], rfl, (Except.ok.inj h).symm⟩
    | some cv =>
      cases cv with
      | vArr cs =>
        dsimp only
        cases hm : mapCards cs with
        | error e =>
          intro h
          exact absurd h (by simp [Bind.bind, Except.bind])
        | ok cs' =>
          intro h
          simp only [Bind.bind, Except.bind] at h
          exact ⟨cs', mapCards_fix hm, (Except.ok.inj h).symm⟩
      | vNull =>
        intro h
        exact ⟨[], rfl, (Except.ok.inj h).symm⟩
      | vBool b =>
        intro h
        exact ⟨[], rfl, (Except.ok.inj h).symm⟩
      | vNum n =>
        intro h
        exact ⟨[], rfl, (Except.ok.inj h).symm⟩
      | vStr s =>
        intro h
        exact ⟨[], rfl, (Except.ok.inj h).symm⟩
      | vObj fs2 =>
        intro h
        exact ⟨[], rfl, (Except.ok.inj h).symm⟩

theorem migrateDeck_fix {c v : Value} (h : migrateDeck c = .ok v) :
    migrateDeck v = .ok v := by
  rcases migrateDeck_shape h with ⟨cs', hcs, hv⟩
  subst hv
  have hget2 : (Value.vObj (migrateDeckFields c (.vArr cs') (spreadOwn c))).getField
      "cards" = some (.vArr cs') :=
    migrateDeckFields_lookup_cards c (.vArr cs') (spreadOwn c)
  unfold migrateDeck
  dsimp only
  rw [hget2]
  dsimp only
  rw [hcs]
  simp only [Bind.bind, Except.bind]
  rw [show spreadOwn (Value.vObj (migrateDeckFields c (.vArr cs') (spreadOwn c)))
      = migrateDeckFields c (.vArr cs') (spreadOwn c) from rfl]
  rw [migrateDeckFields_fix]

/-- The ten field names assigned by `migrateWordCard`. -/
def wordCardMigKeys : List String :=
  ["targetLanguage", "nativeLanguage", "phonetics", "partOfSpeech", "definitions",
   "collocations", "synonyms", "antonyms", "wordFamily", "mnemonic"]

theorem migrateWordCardFields_preserves (card : Value) (base : List (String × Value))
    (k : String) (hk : k ∉ wordCardMigKeys) :
    lookupField (migrateWordCardFields card base) k = lookupField base k := by
  simp only [wordCardMigKeys, List.mem_cons, List.mem_singleton, not_or] at hk
  obtain ⟨n1, n2, n3, n4, n5, n6, n7, n8, n9, n10, -⟩ := hk
  simp only [migrateWordCardFields, lookupField_setKey]
  rw [if_neg (fun h => n10 h.symm), if_neg (fun h => n9 h.symm),
    if_neg (fun h => n8 h.symm), if_neg (fun h => n7 h.symm),
    if_neg (fun h => n6 h.symm), if_neg (fun h => n5 h.symm),
    if_neg (fun h => n4 h.symm), if_neg (fun h => n3 h.symm),
    if_neg (fun h => n2 h.symm), if_neg (fun h => n1 h.symm)]

theorem mig_lookup_arr (card : Value) (base : List (String × Value)) :
    lookupField (migrateWordCardFields card base) "definitions" =
        some (arrOrEmpty (card.getField "definitions")) ∧
    lookupField (migrateWordCardFields card base) "collocations" =
        some (arrOrEmpty (card.getField "collocations")) ∧
    lookupField (migrateWordCardFields card base) "synonyms" =
        some (arrOrEmpty (card.getField "synonyms")) ∧
    lookupField (migrateWordCardFields card base) "antonyms" =
        some (arrOrEmpty (card.getField "antonyms")) ∧
    lookupField (migrateWordCardFields card base) "wordFamily" =
        some (arrOrEmpty (card.getField "wordFamily")) ∧
    lookupField (migrateWordCardFields card base) "mnemonic" =
        some (arrOrEmpty (card.getField "mnemonic")) ∧
    lookupField (migrateWordCardFields card base) "phonetics" =
        some (jsOr (card.getField "phonetics") phoneticsDefault) ∧
    lookupField (migrateWordCardFields card base) "partOfSpeech" =
        some (jsOr (card.getField "partOfSpeech") partOfSpeechDefault) := by
  refine ⟨?_, ?_, ?_, ?_, ?_, ?_, ?_, ?_⟩
  all_goals simp [migrateWordCardFields, lookupField_setKey]

/-! ## C5: migration is idempotent, fills defaults, keeps extra fields -/

/-- C5: applying each migration function (word card, deck, story) twice
yields the result of applying it once; a missing array-valued field becomes
the empty array and the nested `phonetics`/`partOfSpeech` objects become
present (their defaults when missing); and for an object record, every field
outside the ten migrated keys is passed through unchanged. -/
theorem migration_idempotent_defaults_preserving (c : Value) :
    ((migrateWordCard c).bind migrateWordCard = migrateWordCard c) ∧
    ((migrateDeck c).bind migrateDeck = migrateDeck c) ∧
    ((migrateStory c).bind migrateStory = migrateStory c) ∧
    (∀ v, migrateWordCard c = .ok v →
      (c.getField "definitions" = none → v.getField "definitions" = some (.vArr [])) ∧
      (c.getField "collocations" = none → v.getField "collocations" = some (.vArr [])) ∧
      (c.getField "synonyms" = none → v.getField "synonyms" = some (.vArr [])) ∧
      (c.getField "antonyms" = none → v.getField "antonyms" = some (.vArr [])) ∧
      (c.getField "wordFamily" = none → v.getField "wordFamily" = some (.vArr [])) ∧
      (c.getField "mnemonic" = none → v.getField "mnemonic" = some (.vArr [])) ∧
      (c.getField "phonetics" = none → v.getField "phonetics" = some phoneticsDefault) ∧
      (c.getField "partOfSpeech" = none →
        v.getField "partOfSpeech" = some partOfSpeechDefault) ∧
      (∀ fs k, c = .vObj fs → k ∉ wordCardMigKeys → v.getField k = c.getField k)) := by
  refine ⟨?_, ?_, ?_, ?_⟩
  · cases hc : migrateWordCard c with
    | error e =>
      rfl
    | ok v =>
      show migrateWordCard v = _
      rw [migrateWordCard_fix hc]
  · cases hc : migrateDeck c with
    | error e =>
      rfl
    | ok v =>
      show migrateDeck v = _
      rw [migrateDeck_fix hc]
  · cases hc : migrateStory c with
    | error e =>
      rfl
    | ok v =>
      show migrateStory v = _
      rw [migrateStory_fix hc]
  · intro v hv
    have hobj := migrateWordCard_isObj c v hv
    subst hobj
    rcases mig_lookup_arr c (spreadOwn c) with ⟨l1, l2, l3, l4, l5, l6, l7, l8⟩
    refine ⟨?_, ?_, ?_, ?_, ?_, ?_, ?_, ?_, ?_⟩
    · intro hnone
      show lookupField _ _ = _
      rw [l1, hnone]
      rfl
    · intro hnone
      show lookupField _ _ = _
      rw [l2, hnone]
      rfl
    · intro hnone
      show lookupField _ _ = _
      rw [l3, hnone]
      rfl
    · intro hnone
      show lookupField _ _ = _
      rw [l4, hnone]
      rfl
    · intro hnone
      show lookupField _ _ = _
      rw [l5, hnone]
      rfl
    · intro hnone
      show lookupField _ _ = _
      rw [l6, hnone]
      rfl
    · intro hnone
      show lookupField _ _ = _
      rw [l7, hnone]
      rfl
    · intro hnone
      show lookupField _ _ = _
      rw [l8, hnone]
      rfl
    · intro fs k hfs hk
      subst hfs
      show lookupField _ _ = _
      rw [migrateWordCardFields_preserves _ _ _ hk]
      rfl

/-- Witness for C5 at a concrete legacy record: an object with only a `word`
field gains the defaults, keeps `word`, and migrating twice equals migrating
once. -/
theorem migration_idempotent_defaults_preserving_witness :
    ((migrateWordCard (.vObj [("word", .vStr "hi")])).bind migrateWordCard
      = migrateWordCard (.vObj [("word", .vStr "hi")])) ∧
    (∀ v, migrateWordCard (.vObj [("word", .vStr "hi")]) = .ok v →
      v.getField "definitions" = some (.vArr []) ∧
      v.getField "word" = some (.vStr "hi")) := by
  have h := migration_idempotent_defaults_preserving (.vObj [("word", .vStr "hi")])
  refine ⟨h.1, ?_⟩
  intro v hv
  have h4 := h.2.2.2 v hv
  refine ⟨h4.1 rfl, ?_⟩
  have := h4.2.2.2.2.2.2.2.2 [("word", .vStr "hi")] "word" rfl (by decide)
  rw [this]
  rfl

/-! ## The content store over JSON values

`localStorage` holds, per collection, either nothing or the JSON text of the
last saved array; `JSON.parse`/`JSON.stringify` of such values round-trips,
so the slot is modelled as `Option (List Value)`.  Each getter applies the
per-record migration inside `try`/`catch`: any thrown `TypeError` degrades
the whole collection to `[]`. -/

structure StoreV where
  decks : Option (List Value)
  words : Option (List Value)
  stories : Option (List Value)
  deriving Repr

/-- Model of `decks.map(migrateDeck)` with the first thrown error
propagating. -/
def mapDecks : List Value → Except Unit (List Value)
  | [] => .ok []
  | d :: ds => do
    let v ← migrateDeck d
    let vs ← mapDecks ds
    .ok (v :: vs)

/-- Model of `stories.map(migrateStory)` with the first thrown error
propagating. -/
def mapStories : List Value → Except Unit (List Value)
  | [] => .ok []
  | s :: ss => do
    let v ← migrateStory s
    let vs ← mapStories ss
    .ok (v :: vs)

/-- Shallow embedding of `getDecks` (storageService.ts lines 309-318). -/
def getDecks (st : StoreV) : List Value :=
  match st.decks with
  | none => []
  | some l =>
    match mapDecks l with
    | .ok ds => ds
    | .error _ => []

/-- Shallow embedding of `saveDecks`. -/
def saveDecks (ds : List Value) (st : StoreV) : StoreV :=
  { st with decks := some ds }

/-- Shallow embedding of `getWords` (the word migration is `mapCards`). -/
def getWords (st : StoreV) : List Value :=
  match st.words with
  | none => []
  | some l =>
    match mapCards l with
    | .ok ws => ws
    | .error _ => []

/-- Shallow embedding of `saveWords`. -/
def saveWords (ws : List Value) (st : StoreV) : StoreV :=
  { st with words := some ws }

/-- Shallow embedding of `getStories`. -/
def getStories (st : StoreV) : List Value :=
  match st.stories with
  | none => []
  | some l =>
    match mapStories l with
    | .ok ss => ss
    | .error _ => []

/-- Shallow embedding of `saveStories`. -/
def saveStories (ss : List Value) (st : StoreV) : StoreV :=
  { st with stories := some ss }

/-! ## C10: a save-then-get round trip rewrites id-reference membership -/

theorem mapCards_strings (ss : List String) :
    mapCards (ss.map .vStr) = .ok (ss.map (fun s =>
      .vObj (migrateWordCardFields (.vStr s) (spreadOwn (.vStr s))))) := by
  induction ss with
  | nil => rfl
  | cons s ss ih =>
    show (do
      let v ← migrateWordCard (.vStr s)
      let vs ← mapCards (ss.map .vStr)
      Except.ok (v :: vs)) = _
    rw [ih]
    rfl

theorem migrateDeck_obj_cards (fs : List (String × Value)) (cs cs' : List Value)
    (hcf : lookupField fs "cards" = some (.vArr cs)) (hm : mapCards cs = .ok cs') :
    migrateDeck (.vObj fs) = .ok (.vObj (migrateDeckFields (.vObj fs) (.vArr cs') fs)) := by
  unfold migrateDeck
  dsimp only
  rw [show (Value.vObj fs).getField "cards" = some (.vArr cs) from hcf]
  dsimp only
  rw [hm]
  rfl

/-- C10: `migrateDeck` maps `migrateWordCard` over every element of an
array-valued `cards` field, so for a stored deck in the current
id-reference schema (cards an array of identifier strings) a
`saveDecks`-then-`getDecks` round trip replaces each id string by the object
obtained from spreading the string merged with the migration defaults; the
membership list is returned unchanged only when it is empty. -/
theorem deck_roundtrip_cards_migrated (st : StoreV) (fs : List (String × Value))
    (ss : List String)
    (hcf : lookupField fs "cards" = some (.vArr (ss.map .vStr))) :
    ∃ o, getDecks (saveDecks [.vObj fs] st) = [.vObj o] ∧
      lookupField o "cards" = some (.vArr (ss.map (fun s =>
        .vObj (migrateWordCardFields (.vStr s) (spreadOwn (.vStr s)))))) ∧
      (ss.map (fun s => Value.vObj (migrateWordCardFields (.vStr s)
        (spreadOwn (.vStr s))))).length = ss.length ∧
      (ss ≠ [] → ss.map (fun s => Value.vObj (migrateWordCardFields (.vStr s)
        (spreadOwn (.vStr s)))) ≠ ss.map .vStr) ∧
      (ss = [] → lookupField o "cards" = some (.vArr [])) := by
  have hmig := migrateDeck_obj_cards fs (ss.map .vStr)
    (ss.map (fun s => .vObj (migrateWordCardFields (.vStr s) (spreadOwn (.vStr s)))))
    hcf (mapCards_strings ss)
  refine ⟨migrateDeckFields (.vObj fs)
    (.vArr (ss.map (fun s => .vObj (migrateWordCardFields (.vStr s)
      (spreadOwn (.vStr s)))))) fs, ?_, ?_, ?_, ?_, ?_⟩
  · show (match mapDecks [.vObj fs] with
      | .ok ds => ds
      | .error _ => []) = _
    rw [show mapDecks [.vObj fs] = (do
      let v ← migrateDeck (.vObj fs)
      let vs ← mapDecks []
      Except.ok (v :: vs)) from rfl]
    rw [hmig]
    rfl
  · exact migrateDeckFields_lookup_cards _ _ _
  · rw [List.length_map]
  · intro hne heq
    cases ss with
    | nil => exact hne rfl
    | cons s0 stail =>
      rw [List.map_cons, List.map_cons] at heq
      have hhead := List.head_eq_of_cons_eq heq
      exact Value.noConfusion hhead
  · intro hnil
    subst hnil
    exact migrateDeckFields_lookup_cards _ _ _

/-- Witness for C10 at a concrete deck with a single id string. -/
theorem deck_roundtrip_cards_migrated_witness :
    ∃ o, getDecks (saveDecks [.vObj [("id", .vStr "d1"),
        ("cards", .vArr [.vStr "w1"])]] ⟨none, none, none⟩) = [.vObj o] ∧
      lookupField o "cards" = some (.vArr [.vObj (migrateWordCardFields
        (.vStr "w1") (spreadOwn (.vStr "w1")))]) := by
  have h := deck_roundtrip_cards_migrated ⟨none, none, none⟩
    [("id", .vStr "d1"), ("cards", .vArr [.vStr "w1"])] ["w1"] rfl
  rcases h with ⟨o, h1, h2, -, -, -⟩
  exact ⟨o, h1, h2⟩

/-! ## Import (`handleFileImport`, HomePage)

The parsed payload is a `Value` (or a parse-error message); `window.confirm`
is a boolean input.  The legacy deck-with-embedded-cards upgrade path is
modelled in full, including the `TypeError`s JavaScript raises when the
probed `decks[0].cards` is missing, and the identifier-keyed `Map` used for
dedup (structural equality stands in for JavaScript's SameValueZero; the
identifiers of stored records are strings, where the two coincide). -/

/-- Structural boolean equality of JSON values. -/
def valueBeq : Value → Value → Bool
  | .vNull, .vNull => true
  | .vBool a, .vBool b => a == b
  | .vNum a, .vNum b => a == b
  | .vStr a, .vStr b => a == b
  | .vArr a, .vArr b => beqList a b
  | .vObj a, .vObj b => beqFields a b
  | _, _ => false
where
  beqList : List Value → List Value → Bool
    | [], [] => true
    | x :: xs, y :: ys => valueBeq x y && beqList xs ys
    | _, _ => false
  beqFields : List (String × Value) → List (String × Value) → Bool
    | [], [] => true
    | (k, x) :: xs, (k2, y) :: ys => k == k2 && valueBeq x y && beqFields xs ys
    | _, _ => false

/-- Equality of optional values used as `Map` keys (`none` plays the role of
an `undefined` key). -/
def optValueBeq : Option Value → Option Value → Bool
  | none, none => true
  | some a, some b => valueBeq a b
  | _, _ => false

/-- Model of JavaScript property read `v.k` that may throw: reading on
`null` raises a `TypeError`; missing properties and non-object receivers
give `undefined` (`none`). -/
def jsGetProp : Value → String → Except Unit (Option Value)
  | .vNull, _ => .error ()
  | .vObj fs, k => .ok (lookupField fs k)
  | _, _ => .ok none

/-- `Map.prototype.has` over optional-value keys. -/
def hasKeyV (m : List (Option Value × Value)) (k : Option Value) : Bool :=
  m.any (fun p => optValueBeq p.1 k)

/-- `Map.prototype.set` over optional-value keys: update in place, else
append. -/
def setKeyV (m : List (Option Value × Value)) (k : Option Value) (v : Value) :
    List (Option Value × Value) :=
  if m.any (fun p => optValueBeq p.1 k) then
    m.map (fun p => if optValueBeq p.1 k then (k, v) else p)
  else
    m ++ [(k, v)]

/-- `typeof v === 'object'` for JSON values (`null` and arrays included). -/
def jsTypeofIsObject : Value → Bool
  | .vNull => true
  | .vArr _ => true
  | .vObj _ => true
  | _ => false

/-- `v.length > 0`: arrays and strings have lengths; `null` throws; other
primitives give `undefined > 0 = false`; a plain object reads its own
`length` field when numeric. -/
def jsLengthGtZero : Value → Except Unit Bool
  | .vArr l => .ok (decide (0 < l.length))
  | .vStr s => .ok (decide (0 < s.length))
  | .vNull => .error ()
  | .vNum _ => .ok false
  | .vBool _ => .ok false
  | .vObj o =>
    match lookupField o "length" with
    | some (.vNum n) => .ok (decide (0 < n))
    | _ => .ok false

/-- `v[0]` for the values the probe can reach. -/
def jsIndexZero : Value → Option Value
  | .vArr l => l.head?
  | .vStr s =>
    match s.data with
    | [] => none
    | c :: _ => some (.vStr ⟨[c]⟩)
  | .vObj o => lookupField o "0"
  | _ => none

/-- The legacy-format probe
`importedDecks.length > 0 && importedDecks[0].cards.length > 0 &&
typeof importedDecks[0].cards[0] === 'object'`. -/
def legacyProbe : List Value → Except Unit Bool
  | [] => .ok false
  | d0 :: _ => do
    let cardsOpt ← jsGetProp d0 "cards"
    match cardsOpt with
    | none => .error ()
    | some cv => do
      let big ← jsLengthGtZero cv
      if big then
        match jsIndexZero cv with
        | some c0 => .ok (jsTypeofIsObject c0)
        | none => .ok false
      else
        .ok false

/-- `new Map(importedWords.map(w => [w.id, w]))`: reading `.id` of a `null`
entry throws; entries are inserted left to right. -/
def buildWordsMap (acc : List (Option Value × Value)) :
    List Value → Except Unit (List (Option Value × Value))
  | [] => .ok acc
  | w :: rest => do
    let idv ← jsGetProp w "id"
    buildWordsMap (setKeyV acc idv w) rest

/-- The `forEach` over one legacy deck's embedded cards: collect truthy
`card.id`s in order and add unknown cards to the word map (first occurrence
wins). -/
def collectCards : List Value → List Value × List (Option Value × Value) →
    List Value × List (Option Value × Value)
  | [], st => st
  | card :: rest, (ids, wm) =>
    if truthy card then
      match card with
      | .vObj cfs =>
        match lookupField cfs "id" with
        | some idv =>
          if truthy idv then
            collectCards rest (ids ++ [idv],
              if hasKeyV wm (some idv) then wm else setKeyV wm (some idv) card)
          else
            collectCards rest (ids, wm)
        | none => collectCards rest (ids, wm)
      | _ => collectCards rest (ids, wm)
    else
      collectCards rest (ids, wm)

/-- The legacy migration loop over the imported decks: each deck's `cards`
must be an array (`forEach` on anything else throws; so does reading
`cards` of `null`); it is replaced by the collected id list via
`{...deck, cards: cardIds}`. -/
def legacyDeckLoop (wm : List (Option Value × Value)) :
    List Value → Except Unit (List Value × List (Option Value × Value))
  | [] => .ok ([], wm)
  | deck :: rest => do
    let cardsOpt ← jsGetProp deck "cards"
    match cardsOpt with
    | some (.vArr cards) =>
      let step := collectCards cards ([], wm)
      let deck' := Value.vObj (setKey (spreadOwn deck) "cards" (.vArr step.1))
      let tail ← legacyDeckLoop step.2 rest
      .ok (deck' :: tail.1, tail.2)
    | _ => .error ()

/-- The whole legacy upgrade: build the word map, rewrite every deck, and
take `Array.from(allWordsMap.values())` as the new Words collection. -/
def legacyMigrate (importedDecks importedWords : List Value) :
    Except Unit (List Value × List Value) := do
  let wm ← buildWordsMap [] importedWords
  let out ← legacyDeckLoop wm importedDecks
  .ok (out.1, out.2.map (fun p => p.2))

/-- The collection read from a payload field: the array itself when the
field holds an array, `[]` otherwise. -/
def importArr : Option Value → List Value
  | some (.vArr l) => l
  | _ => []

/-- Outcome surfaced to the user by `handleFileImport`. -/
inductive ImportOutcome where
  | importedOk
  | cancelled
  | failedInvalidFile
  | failedParse (msg : String)
  | failedTypeError
  deriving Repr, DecidableEq

/-- Shallow embedding of `handleFileImport` (HomePage, lines 95-152):
validate that the parsed payload is a truthy non-array object, confirm with
the user, read the three collections, upgrade the legacy embedded-cards
format when the probe fires, and overwrite all three collections; every
failure alerts and leaves the store untouched (the saves happen only after
all migration work succeeded). -/
def handleFileImport (parsed : Except String Value) (confirmOk : Bool)
    (st : StoreV) : StoreV × ImportOutcome :=
  match parsed with
  | .error msg => (st, .failedParse msg)
  | .ok data =>
    match data with
    | .vObj fs =>
      if confirmOk then
        let importedDecks := importArr (lookupField fs "decks")
        let importedWords := importArr (lookupField fs "words")
        let importedStories := importArr (lookupField fs "stories")
        match legacyProbe importedDecks with
        | .error _ => (st, .failedTypeError)
        | .ok true =>
          match legacyMigrate importedDecks importedWords with
          | .error _ => (st, .failedTypeError)
          | .ok out =>
            (⟨some out.1, some out.2, some importedStories⟩, .importedOk)
        | .ok false =>
          (⟨some importedDecks, some importedWords, some importedStories⟩, .importedOk)
      else
        (st, .cancelled)
    | _ => (st, .failedInvalidFile)

/-! ## C6: import validation and atomicity -/

/-- C6 (counterexample): the claim states a malformed payload surfaces the
explicit invalid-file message.  On the code, `JSON.parse` throws before the
validation, and the `catch` alerts the import-failed prefix with the parse
error's own message, which is not the invalid-file message; the collections
are untouched. -/
theorem import_invalid_message_cex :
    handleFileImport (.error "Unexpected end of JSON input") true ⟨none, none, none⟩
      = (⟨none, none, none⟩, .failedParse "Unexpected end of JSON input") ∧
    ImportOutcome.failedParse "Unexpected end of JSON input"
      ≠ ImportOutcome.failedInvalidFile :=
  ⟨rfl, by decide⟩

/-- C6 (amended): import validates the parsed payload is a non-array,
non-null object; a payload failing that validation surfaces the invalid-file
message, while malformed JSON surfaces an import-failed message carrying the
parse error instead; whenever the outcome is not a successful import — a
validation failure, a user cancel, or a `TypeError` thrown by the
legacy-format probe or upgrade — all three stored collections are untouched;
and a confirmed valid payload on which the legacy probe does not fire
replaces all three collections at once with the payload's arrays. -/
theorem import_validation_atomicity (parsed : Except String Value)
    (confirmOk : Bool) (st : StoreV) :
    (∀ msg, parsed = .error msg →
      handleFileImport parsed confirmOk st = (st, .failedParse msg)) ∧
    (∀ v, parsed = .ok v → (∀ fs, v ≠ .vObj fs) →
      handleFileImport parsed confirmOk st = (st, .failedInvalidFile)) ∧
    ((handleFileImport parsed confirmOk st).2 ≠ .importedOk →
      (handleFileImport parsed confirmOk st).1 = st) ∧
    (∀ fs, parsed = .ok (.vObj fs) → confirmOk = true →
      legacyProbe (importArr (lookupField fs "decks")) = .ok false →
      handleFileImport parsed confirmOk st =
        (⟨some (importArr (lookupField fs "decks")),
          some (importArr (lookupField fs "words")),
          some (importArr (lookupField fs "stories"))⟩, .importedOk)) := by
  refine ⟨?_, ?_, ?_, ?_⟩
  · intro msg hmsg
    rw [hmsg]
    rfl
  · intro v hv hno
    rw [hv]
    cases v with
    | vObj fs => exact absurd rfl (hno fs)
    | vNull => rfl
    | vBool b => rfl
    | vNum n => rfl
    | vStr s => rfl
    | vArr l => rfl
  · intro hne
    cases parsed with
    | error msg => rfl
    | ok v =>
      cases v with
      | vObj fs =>
        by_cases hc : confirmOk
        · subst hc
          unfold handleFileImport at hne ⊢
          dsimp only at hne ⊢
          cases hp : legacyProbe (importArr (lookupField fs "decks")) with
          | error e => rfl
          | ok b =>
            rw [hp] at hne
            cases b with
            | true =>
              cases hm : legacyMigrate (importArr (lookupField fs "decks"))
                  (importArr (lookupField fs "words")) with
              | error e => rfl
              | ok out =>
                rw [hm] at hne
                exact absurd rfl hne
            | false =>
              exact absurd rfl hne
        · have hcf : confirmOk = false := Bool.eq_false_iff.mpr hc
          subst hcf
          rfl
      | vNull => rfl
      | vBool b => rfl
      | vNum n => rfl
      | vStr s => rfl
      | vArr l => rfl
  · intro fs hv hc hp
    subst hv
    subst hc
    unfold handleFileImport
    dsimp only
    rw [hp]
    rfl

/-- Witness for C6's amended theorem: a confirmed current-format payload
replaces all three collections. -/
theorem import_validation_atomicity_witness :
    handleFileImport (.ok (.vObj [("decks", .vArr []),
        ("words", .vArr [.vObj [("id", .vStr "w1")]]), ("stories", .vArr [])]))
      true ⟨none, none, none⟩
      = (⟨some [], some [.vObj [("id", .vStr "w1")]], some []⟩, .importedOk) :=
  (import_validation_atomicity (.ok (.vObj [("decks", .vArr []),
      ("words", .vArr [.vObj [("id", .vStr "w1")]]), ("stories", .vArr [])]))
    true ⟨none, none, none⟩).2.2.2
    [("decks", .vArr []), ("words", .vArr [.vObj [("id", .vStr "w1")]]),
      ("stories", .vArr [])] rfl rfl rfl

/-! ## HomePage handlers over the typed store (`src/types.ts` current schema)

The HomePage component loads the three collections into memory and writes
back filtered copies; the handlers are pure functions of that state.  A
`CardDeck` here is the current id-reference schema: `cards` is a list of
WordCard identifiers. -/

/-- A deck in the current id-reference schema. -/
structure CardDeck where
  id : String
  title : String
  cards : List String
  createdAt : String
  targetLanguage : String
  nativeLanguage : String
  deriving Repr, DecidableEq

/-- A generated story. -/
structure Story where
  id : String
  deckId : String
  title : String
  content : String
  words : List String
  createdAt : String
  targetLanguage : String
  nativeLanguage : String
  deriving Repr, DecidableEq

/-- The three collections the HomePage works on. -/
structure HomeStore where
  decks : List CardDeck
  words : List WordCard
  stories : List Story
  deriving Repr, DecidableEq

/-- Shallow embedding of `handleDeleteDeck` (HomePage, lines 37-47): after
the confirm dialog, save the decks without the deleted one and the stories
without those of the deleted deck; the Words collection is not touched. -/
def handleDeleteDeck (confirmOk : Bool) (deckId : String) (st : HomeStore) :
    HomeStore :=
  if confirmOk then
    { st with
      decks := st.decks.filter (fun deck => deck.id != deckId)
      stories := st.stories.filter (fun story => story.deckId != deckId) }
  else
    st

/-- Shallow embedding of `handleDeleteWord` (HomePage, lines 49-64): after
the confirm dialog, remove the word from the master word list and filter its
id out of every deck's membership list. -/
def handleDeleteWord (confirmOk : Bool) (wordId : String) (st : HomeStore) :
    HomeStore :=
  if confirmOk then
    { st with
      words := st.words.filter (fun word => word.id != wordId)
      decks := st.decks.map (fun deck =>
        { deck with cards := deck.cards.filter (fun i => i != wordId) }) }
  else
    st

/-! ## C7: deleting a deck cascades to its stories and spares the words -/

/-- C7: confirmed deletion of deck `D` keeps exactly the decks whose id
differs from `D` and exactly the stories whose `deckId` differs from `D`,
and returns the Words collection unchanged. -/
theorem delete_deck_cascade (deckId : String) (st : HomeStore) :
    (∀ d, d ∈ (handleDeleteDeck true deckId st).decks ↔
      (d ∈ st.decks ∧ d.id ≠ deckId)) ∧
    (∀ s, s ∈ (handleDeleteDeck true deckId st).stories ↔
      (s ∈ st.stories ∧ s.deckId ≠ deckId)) ∧
    (handleDeleteDeck true deckId st).words = st.words := by
  refine ⟨?_, ?_, rfl⟩
  · intro d
    simp [handleDeleteDeck, List.mem_filter]
  · intro s
    simp [handleDeleteDeck, List.mem_filter]

/-- Witness for C7 at a concrete store: the story of the deleted deck
disappears, an unrelated story stays, and the Words collection is returned
as it was. -/
theorem delete_deck_cascade_witness :
    (⟨"s1", "d1", "t", "c", [], "", "en", "zh"⟩ : Story) ∉
      (handleDeleteDeck true "d1"
        ⟨[⟨"d1", "T", ["w1"], "", "en", "zh"⟩],
         [⟨"w1", sampleCardData "w" "words"⟩],
         [⟨"s1", "d1", "t", "c", [], "", "en", "zh"⟩,
          ⟨"s2", "d2", "t", "c", [], "", "en", "zh"⟩]⟩).stories ∧
    (⟨"s2", "d2", "t", "c", [], "", "en", "zh"⟩ : Story) ∈
      (handleDeleteDeck true "d1"
        ⟨[⟨"d1", "T", ["w1"], "", "en", "zh"⟩],
         [⟨"w1", sampleCardData "w" "words"⟩],
         [⟨"s1", "d1", "t", "c", [], "", "en", "zh"⟩,
          ⟨"s2", "d2", "t", "c", [], "", "en", "zh"⟩]⟩).stories ∧
    (handleDeleteDeck true "d1"
        ⟨[⟨"d1", "T", ["w1"], "", "en", "zh"⟩],
         [⟨"w1", sampleCardData "w" "words"⟩],
         [⟨"s1", "d1", "t", "c", [], "", "en", "zh"⟩,
          ⟨"s2", "d2", "t", "c", [], "", "en", "zh"⟩]⟩).words
      = [⟨"w1", sampleCardData "w" "words"⟩] := by
  have h := delete_deck_cascade "d1"
    ⟨[⟨"d1", "T", ["w1"], "", "en", "zh"⟩],
     [⟨"w1", sampleCardData "w" "words"⟩],
     [⟨"s1", "d1", "t", "c", [], "", "en", "zh"⟩,
      ⟨"s2", "d2", "t", "c", [], "", "en", "zh"⟩]⟩
  refine ⟨?_, ?_, h.2.2⟩
  · intro hmem
    exact ((h.2.1 _).mp hmem).2 rfl
  · exact (h.2.1 _).mpr ⟨by decide, by decide⟩

/-! ## C8: deleting a word filters deck membership without deleting decks -/

/-- C8: confirmed deletion of word `w` keeps exactly the words whose id
differs from `w`; no deck record is deleted (the deck list keeps its length)
and each deck keeps every field except that `w` is filtered out of its
membership list — the remaining ids in their original relative order (the
new membership is a sublist of the old); stories are untouched. -/
theorem delete_word_deck_membership (wordId : String) (st : HomeStore) :
    (∀ w, w ∈ (handleDeleteWord true wordId st).words ↔
      (w ∈ st.words ∧ w.id ≠ wordId)) ∧
    (handleDeleteWord true wordId st).decks.length = st.decks.length ∧
    (∀ i (h2 : i < (handleDeleteWord true wordId st).decks.length)
        (h : i < st.decks.length),
      ((handleDeleteWord true wordId st).decks.get ⟨i, h2⟩).id =
        (st.decks.get ⟨i, h⟩).id ∧
      ((handleDeleteWord true wordId st).decks.get ⟨i, h2⟩).title =
        (st.decks.get ⟨i, h⟩).title ∧
      ((handleDeleteWord true wordId st).decks.get ⟨i, h2⟩).createdAt =
        (st.decks.get ⟨i, h⟩).createdAt ∧
      ((handleDeleteWord true wordId st).decks.get ⟨i, h2⟩).targetLanguage =
        (st.decks.get ⟨i, h⟩).targetLanguage ∧
      ((handleDeleteWord true wordId st).decks.get ⟨i, h2⟩).nativeLanguage =
        (st.decks.get ⟨i, h⟩).nativeLanguage ∧
      ((handleDeleteWord true wordId st).decks.get ⟨i, h2⟩).cards =
        (st.decks.get ⟨i, h⟩).cards.filter (fun c => c != wordId) ∧
      List.Sublist ((handleDeleteWord true wordId st).decks.get ⟨i, h2⟩).cards
        (st.decks.get ⟨i, h⟩).cards) ∧
    (handleDeleteWord true wordId st).stories = st.stories := by
  refine ⟨?_, ?_, ?_, rfl⟩
  · intro w
    simp [handleDeleteWord, List.mem_filter]
  · simp [handleDeleteWord]
  · intro i h2 h
    have hget : (handleDeleteWord true wordId st).decks.get ⟨i, h2⟩ =
        { st.decks.get ⟨i, h⟩ with
          cards := (st.decks.get ⟨i, h⟩).cards.filter (fun c => c != wordId) } := by
      rw [List.get_eq_getElem, List.get_eq_getElem]
      exact List.getElem_map _
    rw [hget]
    refine ⟨rfl, rfl, rfl, rfl, rfl, rfl, ?_⟩
    exact List.filter_sublist _

/-- Witness for C8 at a concrete store: deleting the only member of a deck
empties the membership but keeps the deck. -/
theorem delete_word_deck_membership_witness :
    (handleDeleteWord true "w1"
        ⟨[⟨"d1", "T", ["w1"], "", "en", "zh"⟩],
         [⟨"w1", sampleCardData "w" "words"⟩], []⟩).decks.length = 1 ∧
    (handleDeleteWord true "w1"
        ⟨[⟨"d1", "T", ["w1"], "", "en", "zh"⟩],
         [⟨"w1", sampleCardData "w" "words"⟩], []⟩).words = [] := by
  have h := delete_word_deck_membership "w1"
    ⟨[⟨"d1", "T", ["w1"], "", "en", "zh"⟩],
     [⟨"w1", sampleCardData "w" "words"⟩], []⟩
  refine ⟨h.2.1, ?_⟩
  rfl
